import Mathlib

/-!
Verification of the table-reconciliation engine of
`src/document_processing/extractors/pdf.py`.

The Python code is shallowly embedded: Python `str` values become `String`
(whose 4.14 model is a packed `List Char`), the character-level operations
`str.strip` / `str.lower` / `str.split` are modelled over `List Char` on the
ASCII fragment, Python `float` arithmetic is modelled exactly over `ℚ`, and
Python dictionaries with a fixed key set become structures whose optional
keys are `Option` fields.  `try`/`except` blocks around externally-fallible
computations are modelled with `Except`-valued steps.
-/

/-- ASCII whitespace, the character class used by Python `str.strip` and
`str.split` on the inputs this code manipulates. -/
def pyIsSpace (c : Char) : Bool :=
  c = ' ' || c = '\t' || c = '\n' || c = '\r' || c = '\x0b' || c = '\x0c'

/-- ASCII lower-casing, the fragment of Python `str.lower` exercised here. -/
def lowerChar (c : Char) : Char :=
  if 65 ≤ c.toNat ∧ c.toNat ≤ 90 then Char.ofNat (c.toNat + 32) else c

/-- `str.lower` over the character list. -/
def lowerL (l : List Char) : List Char := l.map lowerChar

/-- `str.lstrip()`. -/
def ltrimL (l : List Char) : List Char := l.dropWhile pyIsSpace

/-- `str.rstrip()`. -/
def rtrimL (l : List Char) : List Char := ((l.reverse.dropWhile pyIsSpace)).reverse

/-- `str.strip()`. -/
def trimL (l : List Char) : List Char := rtrimL (ltrimL l)

/-- `str.strip()` packaged on `String`. -/
def pyStrip (s : String) : String := String.mk (trimL s.data)

/-- `str(h).strip().lower()`, the header normalisation in `_are_headers_similar`. -/
def pyStripLower (s : String) : String := String.mk (lowerL (trimL s.data))

/-- Python `str.split()` (split on whitespace runs, discarding empty chunks). -/
def pyWords (l : List Char) : List (List Char) :=
  (l.splitOnP pyIsSpace).filter (fun w => !w.isEmpty)

/-- Python `' '.join(ws)`. -/
def joinWords (ws : List (List Char)) : List Char := List.intercalate [' '] ws

/-- `' '.join(cell.strip().split())`: the whitespace normalisation applied to
headers and cells by `_refine_table_structure`. -/
def cleanCell (s : String) : String := String.mk (joinWords (pyWords (trimL s.data)))

/-- Truthiness of `cell.strip()`: the emptiness test used by the empty-row and
empty-column pruning in `_refine_table_structure`. -/
def cellNonBlank (s : String) : Bool := !(trimL s.data).isEmpty

/-! ### Basic lemmas about the character-level primitives -/

/-- Normalisation as done inside `_string_similarity`: `.lower().strip()`. -/
def pynormL (l : List Char) : List Char := trimL (lowerL l)

/-! ### `_string_similarity`: normalised Levenshtein similarity -/

/-- Inner loop of the Levenshtein dynamic program in `_string_similarity`:
given the remaining column characters of `s2`, the unconsumed part of
`previous_row` and the last value pushed onto `current_row`, produce the rest
of `current_row`.  `insertions = previous_row[j+1] + 1`,
`deletions = current_row[j] + 1`, `substitutions = previous_row[j] + (c1 != c2)`. -/
def levAux (c1 : Char) : List Char → List Nat → Nat → List Nat
  | [], _, _ => []
  | c2 :: cs, p0 :: p1 :: ps, last =>
    let v := min (p1 + 1) (min (last + 1) (p0 + (if c1 = c2 then 0 else 1)))
    v :: levAux c1 cs (p1 :: ps) v
  | _ :: _, _, _ => []

/-- One outer-loop iteration: `current_row = [i+1]` extended by the inner loop. -/
def levRow (c1 : Char) (s2 : List Char) (prev : List Nat) (i : Nat) : List Nat :=
  (i + 1) :: levAux c1 s2 prev (i + 1)

/-- The full dynamic program of `_string_similarity`:
`previous_row = list(range(len(s2)+1))`, one `levRow` per character of `s1`,
and the distance is `previous_row[-1]`. -/
def levDistance (s1 s2 : List Char) : Nat :=
  let final := (s1.foldl (fun acc c1 => (levRow c1 s2 acc.1 acc.2, acc.2 + 1))
    (List.range (s2.length + 1), 0)).1
  final.getLastD 0

/-- `1.0 - (distance / max_len) if max_len > 0 else 1.0`. -/
def levSimilarity (s1 s2 : List Char) : ℚ :=
  let maxLen := max s1.length s2.length
  if 0 < maxLen then 1 - (levDistance s1 s2 : ℚ) / (maxLen : ℚ) else 1

/-- `_string_similarity` on already charlist-converted input.  The Python
function first normalises both arguments with `.lower().strip()`, returns `0.0`
if either normalised string is empty, `1.0` if they are equal, and otherwise
runs the Levenshtein program with the longer string first (the source does this
by a recursive call `self._string_similarity(s2, s1)`, which re-normalises its
arguments — a no-op on already-normalised strings, see `pynormL` lemmas). -/
def stringSimilarityL (l1 l2 : List Char) : ℚ :=
  let t1 := pynormL l1
  let t2 := pynormL l2
  if t1.isEmpty || t2.isEmpty then 0
  else if t1 = t2 then 1
  else if t1.length < t2.length then levSimilarity t2 t1
  else levSimilarity t1 t2

/-- `_string_similarity` on `String`s. -/
def stringSimilarity (s1 s2 : String) : ℚ := stringSimilarityL s1.data s2.data

/-- `_are_headers_similar`: per-column similarity with threshold `0.8`, header
lists similar when the fraction of similar columns exceeds `0.7`; empty or
length-mismatched header lists are never similar. -/
def areHeadersSimilar (headers1 headers2 : List String) : Bool :=
  if headers1.isEmpty || headers2.isEmpty then false
  else
    let s1 := headers1.map pyStripLower
    let s2 := headers2.map pyStripLower
    if s1.length ≠ s2.length then false
    else
      let cnt := (s1.zip s2).countP (fun p => decide (stringSimilarity p.1 p.2 > 8 / 10))
      let ratio : ℚ := if !s1.isEmpty then (cnt : ℚ) / (s1.length : ℚ) else 0
      decide (ratio > 7 / 10)

/-! ### The `Table` record

A table is a Python dict with a fixed key vocabulary.  Keys whose *presence*
is tested by the code (`data`, `bbox`, `region`, `page_range`) are `Option`
fields; keys that are only read through `.get(key, default)` are plain fields
whose default models an absent key (`page` ↦ 0, `text` ↦ "", `headers` ↦ [],
`extraction_method` ↦ "unknown"). -/
structure Table where
  id : String := ""
  page : Nat := 0
  page_range : Option (List Nat) := none
  bbox : Option (List ℚ) := none
  headers : List String := []
  rows : List (List String) := []
  data : Option (List (List String)) := none
  text : String := ""
  context : String := ""
  region : Option (List ℚ) := none
  extraction_method : String := "unknown"
  confidence : ℚ := 0
  num_rows : Nat := 0
  num_cols : Nat := 0
  refined : Bool := false
  is_cross_page : Bool := false
deriving DecidableEq, Repr

/-- `_are_tables_related`.  The `data`-based checks can only veto; a missing
signal (no `data` key, no `bbox`, empty headers) never disqualifies. -/
def areTablesRelated (table1 table2 : Table) : Bool :=
  let dataOk : Bool :=
    match table1.data, table2.data with
    | some data1, some data2 =>
      if data1.isEmpty || data2.isEmpty then false
      else
        let colCount1 := (data1.headD []).length
        let colCount2 := (data2.headD []).length
        if colCount1 ≠ colCount2 ∨ colCount1 = 0 then false
        else
          let headers1 := data1.headD []
          let headers2 := data2.headD []
          if 0 < colCount1 ∧ 0 < data1.length ∧ 0 < data2.length then
            if !headers1.isEmpty && !headers2.isEmpty &&
                !areHeadersSimilar headers1 headers2 then false
            else true
          else true
    | _, _ => true
  if !dataOk then false
  else
    match table1.bbox, table2.bbox with
    | some bbox1, some bbox2 =>
      if 4 ≤ bbox1.length ∧ 4 ≤ bbox2.length then
        let width1 := bbox1.getD 2 0 - bbox1.getD 0 0
        let width2 := bbox2.getD 2 0 - bbox2.getD 0 0
        let maxWidth := max width1 width2
        if 0 < maxWidth ∧ |width1 - width2| / maxWidth > 1 / 5 then false
        else true
      else true
    | _, _ => true

/-- `_merge_tables`: start from a copy of the first table; concatenate the
`data` key when both tables carry one (skipping the second table's leading row
when it is header-similar to the first table's leading row); concatenate the
`text` key with a newline; set `page_range`, suffix `extraction_method`, and
flag `is_cross_page`. -/
def mergeTables (table1 table2 : Table) : Table :=
  let withData : Table :=
    match table1.data, table2.data with
    | some data1, some data2 =>
      let startIdx := if 0 < data1.length ∧ 0 < data2.length ∧
          areHeadersSimilar (data1.headD []) (data2.headD []) then 1 else 0
      { table1 with data := some (data1 ++ data2.drop startIdx) }
    | _, _ => table1
  { withData with
    text := table1.text ++ "\n" ++ table2.text,
    page_range := some [table1.page, table2.page],
    extraction_method := table1.extraction_method ++ "_cross_page",
    is_cross_page := true }

/-- Sort key of `_handle_cross_page_tables`:
`(t.get('page', 0), t.get('bbox', [0,0,0,0])[1] if 'bbox' in t and len(...) >= 2 else 0)`. -/
def tableSortKey (t : Table) : Nat × ℚ :=
  (t.page, match t.bbox with
    | some b => if 2 ≤ b.length then b.getD 1 0 else 0
    | none => 0)

/-- Lexicographic comparison on the sort key (Python tuple ordering). -/
def tableLE (a b : Table) : Bool :=
  (tableSortKey a).1 < (tableSortKey b).1 ||
    ((tableSortKey a).1 = (tableSortKey b).1 &&
      decide ((tableSortKey a).2 ≤ (tableSortKey b).2))

/-- The stable sort at the top of `_handle_cross_page_tables`. -/
def sortTables (tables : List Table) : List Table := tables.mergeSort tableLE

/-- The single-pointer merge scan of `_handle_cross_page_tables`: a related
consecutive-page pair is replaced by its merge and the pointer advances by
two; otherwise the current table passes through and the pointer advances by
one. -/
def mergeScan : List Table → List Table
  | [] => []
  | [t] => [t]
  | t1 :: t2 :: rest =>
    if t2.page = t1.page + 1 && areTablesRelated t1 t2 then
      mergeTables t1 t2 :: mergeScan rest
    else
      t1 :: mergeScan (t2 :: rest)

/-- The `try`/`except` skeleton of `_handle_cross_page_tables`.  Lists shorter
than two tables are returned at once.  Inside the `try`, the source first
sorts the list *in place* (`tables.sort(...)`), which rebinds the list's
contents, and then runs the merge scan; `scanStep` abstracts the fallible
scan.  If the scan signals an exception, the `except` branch returns `tables`
— by that point already the sorted list, not the caller's original order.
(The sort key itself is total in the typed model, so the sort phase cannot
signal.) -/
def handleCrossPageTablesWith (scanStep : List Table → Except Unit (List Table))
    (tables : List Table) : List Table :=
  if tables.length < 2 then tables
  else
    let sorted := sortTables tables
    match scanStep sorted with
    | Except.ok merged => merged
    | Except.error _ => sorted

/-- `_handle_cross_page_tables` with the actual (non-signalling) merge scan. -/
def handleCrossPageTables (tables : List Table) : List Table :=
  handleCrossPageTablesWith (fun ts => Except.ok (mergeScan ts)) tables

/-- Python `list(zip(*rows))` as used twice in `_refine_table_structure`:
the transpose truncated to the shortest row (`zip` stops at the shortest
iterable, and `zip()` of no lists is empty). -/
def pyTranspose (rows : List (List String)) : List (List String) :=
  let n := ((rows.map List.length).min?).getD 0
  (List.range n).map (fun i => rows.map (fun r => r.getD i ""))

/-- Step 1 of `_refine_table_structure`: drop rows whose cells are all blank. -/
def pruneEmptyRows (data : List (List String)) : List (List String) :=
  data.filter (fun row => row.any cellNonBlank)

/-- Step 2 of `_refine_table_structure`: transpose (Python `zip`), drop
all-blank columns, transpose back — skipped entirely on empty input (`if
data:`), and the pruned transpose is not applied when no column survives
(`if transposed:`). -/
def pruneEmptyCols (data : List (List String)) : List (List String) :=
  if !data.isEmpty then
    let transposed := (pyTranspose data).filter (fun col => col.any cellNonBlank)
    if !transposed.isEmpty then pyTranspose transposed else data
  else data

/-- `_refine_table_structure`.  Tables without a non-empty `data` key are
returned unchanged.  Otherwise: drop all-blank rows; drop all-blank columns;
promote the first remaining row to `headers` when no header is set; normalise
whitespace in headers and cells; set `refined`. -/
def refineTableStructure (table : Table) : Table :=
  match table.data with
  | none => table
  | some data0 =>
    if data0.isEmpty then table
    else
      let data2 := pruneEmptyCols (pruneEmptyRows data0)
      let promoted : List String × List (List String) :=
        if table.headers.isEmpty ∧ 0 < data2.length then (data2.headD [], data2.tail)
        else (table.headers, data2)
      { table with
        data := some (promoted.2.map (fun row => row.map cleanCell)),
        headers := promoted.1.map cleanCell,
        refined := true }

/-! ### `_detect_table_borders` -/

/-- One drawing instruction of a path: a line segment with its two endpoints,
or any other instruction (curves, rectangles-as-items, ...). -/
inductive DrawItem
  | line (x0 y0 x1 y1 : ℚ)
  | other
deriving DecidableEq, Repr

/-- One path from `page.get_drawings()`. -/
structure DrawPath where
  pathType : String
  items : List DrawItem
deriving DecidableEq, Repr

/-- One block from `page.get_text("dict")["blocks"]`; only its `type` key is
inspected (`1` marks an image block, a missing key models as `none`). -/
structure PageBlock where
  blockType : Option Nat
deriving DecidableEq, Repr

/-- The page geometry consumed by `_detect_table_borders`. -/
structure PageData where
  drawings : List DrawPath
  blocks : List PageBlock
deriving DecidableEq, Repr

/-- One iteration of the line-counting loop of `_detect_table_borders`.  The
source computes `length = ((x1-x0)**2 + (y1-y0)**2)**0.5` and skips
`length < 10`; this is embedded as the equivalent squared comparison
`(x1-x0)^2 + (y1-y0)^2 < 100`.  A qualifying segment counts as horizontal when
`|y1-y0| < 3`, else as vertical when `|x1-x0| < 3` (the source's `elif`). -/
def lineStep (acc : Nat × Nat) : DrawItem → Nat × Nat
  | DrawItem.line x0 y0 x1 y1 =>
    if (x1 - x0) ^ 2 + (y1 - y0) ^ 2 < 100 then acc
    else if |y1 - y0| < 3 then (acc.1 + 1, acc.2)
    else if |x1 - x0| < 3 then (acc.1, acc.2 + 1)
    else acc
  | DrawItem.other => acc

/-- The `(h_lines, v_lines)` counting loops of `_detect_table_borders`. -/
def countLines (paths : List DrawPath) : Nat × Nat :=
  paths.foldl (fun acc path => path.items.foldl lineStep acc) (0, 0)

/-- Body of `_detect_table_borders` once the page geometry is available. -/
def detectTableBordersCore (p : PageData) : Bool :=
  let counts := countLines p.drawings
  let rectangles := p.drawings.countP (fun path => path.pathType = "rectangle")
  if (5 ≤ counts.1 ∧ 3 ≤ counts.2) ∨ 10 ≤ rectangles then true
  else p.blocks.any (fun b => b.blockType = some 1)

/-- `_detect_table_borders` with its enclosing `try`/`except`: an exception
while inspecting the page geometry yields `false`. -/
def detectTableBorders (page : Except Unit PageData) : Bool :=
  match page with
  | Except.ok p => detectTableBordersCore p
  | Except.error _ => false

/-! ### The three backend converters -/

/-- A pandas `DataFrame` as consumed by the camelot/tabula converters:
`len(df)` is `rows.length`, `len(df.columns)` is `ncols`, `df.iloc[0]` is the
first row, `df.iloc[1:]` the remaining rows, and `df.empty` holds when either
axis is empty. -/
structure PyDataFrame where
  ncols : Nat
  rows : List (List String)
deriving DecidableEq, Repr

/-- pandas `df.empty`. -/
def PyDataFrame.isEmpty (df : PyDataFrame) : Bool := df.rows.isEmpty || df.ncols == 0

/-- One raw camelot table: its reported `accuracy`, its `DataFrame`, and its
`_bbox`. -/
structure CamelotRaw where
  accuracy : ℚ
  df : PyDataFrame
  bbox : List ℚ
deriving DecidableEq, Repr

/-- `_extract_with_camelot`, from the point where camelot has returned its raw
tables.  `minConfidence` is `config['table_extraction']['min_confidence']`
(default 80) and `headerExtraction` is `config[...]['header_extraction']`
(default true). -/
def extractWithCamelot (minConfidence : ℚ) (headerExtraction : Bool) (flavor : String)
    (pageNumber : Nat) (tables : List CamelotRaw) : List Table :=
  tables.enum.filterMap (fun pair =>
    let i := pair.1
    let t := pair.2
    if t.accuracy < minConfidence then none
    else
      let df := t.df
      let base : Table := {
        id := "table_" ++ toString pageNumber ++ "_" ++ toString (i + 1),
        page := pageNumber,
        extraction_method := "camelot_" ++ flavor,
        confidence := t.accuracy / 100,
        bbox := some t.bbox,
        headers := if !df.isEmpty then df.rows.headD [] else [],
        rows := if !df.isEmpty then df.rows else [],
        num_rows := if !df.isEmpty then df.rows.length else 0,
        num_cols := if !df.isEmpty then df.ncols else 0 }
      some (if headerExtraction && !df.isEmpty then
        { base with headers := df.rows.headD [], rows := df.rows.tail }
      else base))

/-- `_extract_with_tabula`, from the point where tabula has returned its list
of `DataFrame`s (tabula reports neither confidence nor bbox, so the converter
uses the constants `0.7` and `[0,0,0,0]`). -/
def extractWithTabula (headerExtraction : Bool) (lattice : Bool)
    (pageNumber : Nat) (dfs : List PyDataFrame) : List Table :=
  dfs.enum.filterMap (fun pair =>
    let i := pair.1
    let df := pair.2
    if df.isEmpty then none
    else
      let base : Table := {
        id := "table_" ++ toString pageNumber ++ "_" ++ toString (i + 1),
        page := pageNumber,
        extraction_method := "tabula_" ++ (if lattice then "lattice" else "guess"),
        confidence := 7 / 10,
        bbox := some [0, 0, 0, 0],
        headers := if !df.isEmpty then df.rows.headD [] else [],
        rows := if !df.isEmpty then df.rows else [],
        num_rows := if !df.isEmpty then df.rows.length else 0,
        num_cols := if !df.isEmpty then df.ncols else 0 }
      some (if headerExtraction && !df.isEmpty then
        { base with headers := df.rows.headD [], rows := df.rows.tail }
      else base))

/-- `_extract_with_pdfplumber`, from the point where
`page.extract_tables(...)` has returned its nested lists (a cell is `None` or
a string).  Covers the in-range page branch; pdfplumber reports no confidence
or bbox, so the converter uses the constants `0.6` and `[0,0,0,0]`. -/
def extractWithPdfplumber (headerExtraction : Bool) (verticalStrategy horizontalStrategy : String)
    (pageNumber : Nat) (tablesData : List (List (List (Option String)))) : List Table :=
  tablesData.enum.filterMap (fun pair =>
    let i := pair.1
    let tableData := pair.2
    if tableData.isEmpty then none
    else
      let rows := tableData.map (fun row => row.map (fun cell =>
        match cell with
        | none => ""
        | some s => pyStrip s))
      let base : Table := {
        id := "table_" ++ toString pageNumber ++ "_" ++ toString (i + 1),
        page := pageNumber,
        extraction_method := "pdfplumber_" ++ verticalStrategy ++ "_" ++ horizontalStrategy,
        confidence := 6 / 10,
        bbox := some [0, 0, 0, 0],
        headers := if !rows.isEmpty then rows.headD [] else [],
        rows := if 1 < rows.length then rows.tail else [],
        num_rows := if 1 < rows.length then rows.length - 1 else 0,
        num_cols := if !rows.isEmpty then (rows.headD []).length else 0 }
      some (if !headerExtraction && !rows.isEmpty then
        { base with headers := [], rows := rows, num_rows := rows.length }
      else base))

/-! ### `_extract_tables_unified` -/

/-- The configuration slice read by `_extract_tables_unified`:
`config['table_extraction']['method']` (default `"auto"`), the
`table_types` defaults for bordered/borderless pages (`"camelot"` /
`"tabula"`), and `config['table_extraction']['fallback_to_heuristic']`
(default true). -/
structure ExtractionConfig where
  method : String := "auto"
  borderedMethod : String := "camelot"
  borderlessMethod : String := "tabula"
  fallbackToHeuristic : Bool := true
deriving DecidableEq, Repr

/-- Method resolution at the top of `_extract_tables_unified`. -/
def resolveMethod (cfg : ExtractionConfig) (hasBorders : Bool) : String :=
  if cfg.method = "auto" then
    if hasBorders then cfg.borderedMethod else cfg.borderlessMethod
  else cfg.method

/-- One guarded backend call: the `try`/`except` around each extraction call
turns an exception into an empty result.  `call` abstracts the three backend
invocations; its `Bool` argument is `has_borders`, which selects the mode
flags (camelot lattice/stream, tabula lattice/guess). -/
def tryBackend (call : String → Bool → Except Unit (List Table))
    (hasBorders : Bool) (backend : String) : List Table :=
  match call backend hasBorders with
  | Except.ok tables => tables
  | Except.error _ => []

/-- The primary-extraction block of `_extract_tables_unified`: only the three
known backend names trigger a call; any other resolved method leaves the
result empty. -/
def primaryExtract (call : String → Bool → Except Unit (List Table))
    (hasBorders : Bool) (method : String) : List Table :=
  if method = "camelot" then tryBackend call hasBorders "camelot"
  else if method = "tabula" then tryBackend call hasBorders "tabula"
  else if method = "pdfplumber" then tryBackend call hasBorders "pdfplumber"
  else []

/-- `_extract_tables_unified`.  `post` abstracts the trailing per-table
context-attachment loop, which reads the external page geometry and is applied
to every returned table. -/
def extractTablesUnified (call : String → Bool → Except Unit (List Table))
    (post : Table → Table) (cfg : ExtractionConfig) (hasBorders : Bool) : List Table :=
  let method := resolveMethod cfg hasBorders
  let tables0 := primaryExtract call hasBorders method
  let tables :=
    if tables0.isEmpty && cfg.fallbackToHeuristic then
      let t1 := if method ≠ "camelot" then tryBackend call hasBorders "camelot" else tables0
      let t2 := if t1.isEmpty && method ≠ "tabula" then tryBackend call hasBorders "tabula" else t1
      if t2.isEmpty && method ≠ "pdfplumber" then tryBackend call hasBorders "pdfplumber" else t2
    else tables0
  tables.map post

/-- The fallback order stated by the specification: camelot, then tabula, then
pdfplumber, skipping the backend already tried. -/
def fallbackCandidates (method : String) : List String :=
  ["camelot", "tabula", "pdfplumber"].filter (fun b => b ≠ method)

/-- The specification's retry chain: try the candidates in order, stopping at
the first non-empty result (an exception counts as an empty result). -/
def firstNonEmptyResult (call : String → Bool → Except Unit (List Table))
    (hasBorders : Bool) : List String → List Table
  | [] => []
  | b :: rest =>
    let r := tryBackend call hasBorders b
    if r.isEmpty then firstNonEmptyResult call hasBorders rest else r

/-- Specification-side classification: a drawing item is a qualifying
horizontal line when it is a line segment of at least the 10-unit minimum
length whose end-point y-delta is below 3. -/
def isHorizontalLine : DrawItem → Bool
  | DrawItem.line x0 y0 x1 y1 =>
    decide (¬ ((x1 - x0) ^ 2 + (y1 - y0) ^ 2 < 100)) && decide (|y1 - y0| < 3)
  | DrawItem.other => false

/-- Specification-side classification: a qualifying vertical line (end-point
x-delta below 3). -/
def isVerticalLine : DrawItem → Bool
  | DrawItem.line x0 y0 x1 y1 =>
    decide (¬ ((x1 - x0) ^ 2 + (y1 - y0) ^ 2 < 100)) && decide (|x1 - x0| < 3)
  | DrawItem.other => false

/-- All drawing items of a page, across all paths. -/
def allItems (p : PageData) : List DrawItem := (p.drawings.map DrawPath.items).flatten

/-- Specification-side horizontal-line count. -/
def specHLines (p : PageData) : Nat := (allItems p).countP isHorizontalLine

/-- Specification-side vertical-line count. -/
def specVLines (p : PageData) : Nat := (allItems p).countP isVerticalLine

/-- Specification-side rectangle count. -/
def specRectangles (p : PageData) : Nat :=
  p.drawings.countP (fun path => path.pathType = "rectangle")

/-- The specification's notion of header similarity: equal non-zero length and
more than 70% of the column pairs with string similarity above 0.8. -/
def headersSimilarSpec (h1 h2 : List String) : Prop :=
  h1.length = h2.length ∧ h1 ≠ [] ∧
    (((h1.zip h2).countP (fun p => decide (stringSimilarity p.1 p.2 > 8 / 10)) : ℚ) /
      (h1.length : ℚ) > 7 / 10)

/-! ### Concrete fixtures for witnesses and counterexamples -/

/-- A backend-shaped table (rows/headers keys, no `data` key) on page 3. -/
def cexRowsTable1 : Table := {
  page := 3
  headers := ["Name", "Age", "City"]
  rows := [["r1", "r2", "r3"]]
  context := "ctx1"
  text := "txt1" }

/-- A backend-shaped table on page 4 related to `cexRowsTable1`. -/
def cexRowsTable2 : Table := {
  page := 4
  headers := ["Name", "Age", "City"]
  rows := [["x", "y", "z"], ["u", "v", "w"]]
  context := "ctx2"
  text := "txt2" }

/-- A `data`-carrying table on page 3 whose first data row is the header row. -/
def exDataTable1 : Table := {
  page := 3
  data := some [["Name", "Age", "City"], ["1", "2", "3"]] }

/-- A `data`-carrying table on page 4 with the same header row. -/
def exDataTable2 : Table := {
  page := 4
  data := some [["Name", "Age", "City"], ["4", "5", "6"]] }

/-- A table on which refinement is not idempotent: header promotion removes the
first row, after which the second column is entirely blank and only a second
run prunes it. -/
def cexRefineTable : Table := { data := some [["a", "b"], ["c", ""]] }

/-- A table with explicit headers and rectangular data. -/
def exRefineTable : Table := {
  headers := ["h1", "h2"]
  data := some [["a", "b"], ["c", "d"]] }

/-- A camelot table above the confidence threshold whose frame has two rows. -/
def camelotRawBug : CamelotRaw := {
  accuracy := 90
  df := { ncols := 2, rows := [["h1", "h2"], ["a", "b"]] }
  bbox := [0, 0, 10, 10] }

/-- A tabula frame with two rows. -/
def tabulaDfBug : PyDataFrame := { ncols := 2, rows := [["h1", "h2"], ["a", "b"]] }

/-- A page with no drawings and no blocks. -/
def emptyPage : PageData := { drawings := [], blocks := [] }

/-- Minimal tables on pages 1, 2 and 3 (no data, no bbox — trivially related). -/
def exPage1Table : Table := { page := 1 }

/-- See `exPage1Table`. -/
def exPage2Table : Table := { page := 2 }

/-- See `exPage1Table`. -/
def exPage3Table : Table := { page := 3 }

/-- A merge-scan step that always signals an exception. -/
def failingStep : List Table → Except Unit (List Table) := fun _ => Except.error ()

/-- A backend oracle on which every call returns no tables. -/
def emptyCall : String → Bool → Except Unit (List Table) := fun _ _ => Except.ok []

/-- The default table-extraction configuration. -/
def defaultConfig : ExtractionConfig := {}

/-- A backend-shaped table without a `data` key. -/
def plainTable : Table := { page := 5, rows := [["a"]], headers := ["h"] }

/-! ### Claim theorems -/

/-! ### Lemmas and claim theorems -/

theorem char_toNat_ofNat {n : Nat} (h : n.isValidChar) : (Char.ofNat n).toNat = n := by
  unfold Char.ofNat
  split
  · rfl
  · contradiction

theorem lowerChar_toNat_of_upper {c : Char} (h : 65 ≤ c.toNat ∧ c.toNat ≤ 90) :
    (lowerChar c).toNat = c.toNat + 32 := by
  have hval : (c.toNat + 32).isValidChar := by
    left
    omega
  simp only [lowerChar, if_pos h]
  exact char_toNat_ofNat hval

theorem lowerChar_eq_self {c : Char} (h : ¬ (65 ≤ c.toNat ∧ c.toNat ≤ 90)) :
    lowerChar c = c := by
  rw [lowerChar, if_neg h]

theorem lowerChar_lowerChar (c : Char) : lowerChar (lowerChar c) = lowerChar c := by
  by_cases h : 65 ≤ c.toNat ∧ c.toNat ≤ 90
  · have h1 : (lowerChar c).toNat = c.toNat + 32 := lowerChar_toNat_of_upper h
    have h2 : ¬ (65 ≤ (lowerChar c).toNat ∧ (lowerChar c).toNat ≤ 90) := by omega
    rw [lowerChar_eq_self h2]
  · rw [lowerChar_eq_self h, lowerChar_eq_self h]

theorem pyIsSpace_eq_false_of_ge {c : Char} (h : 33 ≤ c.toNat) : pyIsSpace c = false := by
  simp only [pyIsSpace, Bool.or_eq_false_iff, decide_eq_false_iff_not]
  refine ⟨⟨⟨⟨⟨?_, ?_⟩, ?_⟩, ?_⟩, ?_⟩, ?_⟩ <;>
    (intro hEq; subst hEq; exact absurd h (by decide))

theorem pyIsSpace_lowerChar (c : Char) : pyIsSpace (lowerChar c) = pyIsSpace c := by
  by_cases h : 65 ≤ c.toNat ∧ c.toNat ≤ 90
  · have h1 : (lowerChar c).toNat = c.toNat + 32 := lowerChar_toNat_of_upper h
    rw [pyIsSpace_eq_false_of_ge (by omega), pyIsSpace_eq_false_of_ge (by omega)]
  · rw [lowerChar_eq_self h]

theorem pyIsSpace_comp_lowerChar : pyIsSpace ∘ lowerChar = pyIsSpace :=
  funext pyIsSpace_lowerChar

theorem ltrimL_lowerL (l : List Char) : ltrimL (lowerL l) = lowerL (ltrimL l) := by
  simp only [ltrimL, lowerL, List.dropWhile_map, pyIsSpace_comp_lowerChar]

theorem rtrimL_lowerL (l : List Char) : rtrimL (lowerL l) = lowerL (rtrimL l) := by
  simp only [rtrimL, lowerL, ← List.map_reverse, List.dropWhile_map,
    pyIsSpace_comp_lowerChar]

theorem trimL_lowerL (l : List Char) : trimL (lowerL l) = lowerL (trimL l) := by
  simp only [trimL, ltrimL_lowerL, rtrimL_lowerL]

theorem lowerL_lowerL (l : List Char) : lowerL (lowerL l) = lowerL l := by
  simp only [lowerL, List.map_map]
  congr 1
  funext c
  exact lowerChar_lowerChar c

theorem dropWhile_idem (p : Char → Bool) (l : List Char) :
    List.dropWhile p (List.dropWhile p l) = List.dropWhile p l := by
  induction l with
  | nil => rfl
  | cons c cs ih =>
    by_cases h : p c
    · rw [List.dropWhile_cons_of_pos h]
      exact ih
    · rw [List.dropWhile_cons_of_neg h, List.dropWhile_cons_of_neg h]

theorem ltrimL_ltrimL (l : List Char) : ltrimL (ltrimL l) = ltrimL l :=
  dropWhile_idem pyIsSpace l

theorem ltrimL_head_not_space {l : List Char} (h : ltrimL l ≠ []) :
    ∃ c cs, ltrimL l = c :: cs ∧ pyIsSpace c = false := by
  induction l with
  | nil => exact absurd rfl h
  | cons c cs ih =>
    by_cases hc : pyIsSpace c
    · have hstep : ltrimL (c :: cs) = ltrimL cs := by
        simp only [ltrimL, List.dropWhile_cons_of_pos hc]
      rw [hstep] at h ⊢
      exact ih h
    · refine ⟨c, cs, ?_, by simpa using hc⟩
      simp only [ltrimL, List.dropWhile_cons_of_neg hc]

theorem rtrimL_rtrimL (l : List Char) : rtrimL (rtrimL l) = rtrimL l := by
  simp only [rtrimL, List.reverse_reverse]
  rw [dropWhile_idem]

theorem rtrimL_append_spaces (x : List Char) :
    ∃ u, x = rtrimL x ++ u ∧ ∀ c ∈ u, pyIsSpace c = true := by
  have hsuf : List.dropWhile pyIsSpace x.reverse <:+ x.reverse :=
    List.dropWhile_suffix pyIsSpace
  obtain ⟨t, ht⟩ := hsuf
  refine ⟨t.reverse, ?_, ?_⟩
  · conv_lhs => rw [← List.reverse_reverse x, ← ht]
    simp [rtrimL]
  · intro c hc
    have hc' : c ∈ t := by simpa using hc
    have htake : t = List.takeWhile pyIsSpace x.reverse := by
      have hsplit := List.takeWhile_append_dropWhile pyIsSpace x.reverse
      have happ : t ++ List.dropWhile pyIsSpace x.reverse =
          List.takeWhile pyIsSpace x.reverse ++ List.dropWhile pyIsSpace x.reverse := by
        rw [ht, hsplit]
      exact List.append_cancel_right happ
    rw [htake] at hc'
    exact List.mem_takeWhile_imp hc'

theorem ltrimL_rtrimL_of_ltrimmed {x : List Char} (h : ltrimL x = x) :
    ltrimL (rtrimL x) = rtrimL x := by
  obtain ⟨u, hu, _⟩ := rtrimL_append_spaces x
  cases hr : rtrimL x with
  | nil => rfl
  | cons c cs =>
    have hx : x = c :: (cs ++ u) := by rw [hu, hr]; simp
    have hc : pyIsSpace c = false := by
      by_contra hpc
      have hpc' : pyIsSpace c = true := by simpa using hpc
      have h2 := h
      rw [hx, ltrimL, List.dropWhile_cons_of_pos hpc'] at h2
      have hsuf : List.dropWhile pyIsSpace (cs ++ u) <:+ (cs ++ u) :=
        List.dropWhile_suffix pyIsSpace
      obtain ⟨s, hs⟩ := hsuf
      rw [h2] at hs
      have := congrArg List.length hs
      simp at this
      omega
    have hc2 : ¬ pyIsSpace c = true := by simp [hc]
    simp only [ltrimL, List.dropWhile_cons_of_neg hc2]

theorem trimL_trimL (l : List Char) : trimL (trimL l) = trimL l := by
  show rtrimL (ltrimL (rtrimL (ltrimL l))) = rtrimL (ltrimL l)
  rw [ltrimL_rtrimL_of_ltrimmed (ltrimL_ltrimL l), rtrimL_rtrimL]

theorem pynormL_pyStripLower (s : String) :
    pynormL (pyStripLower s).data = pynormL s.data := by
  show trimL (lowerL (lowerL (trimL s.data))) = trimL (lowerL s.data)
  rw [lowerL_lowerL, trimL_lowerL, trimL_trimL, ← trimL_lowerL]

theorem modifyHead_id_fun (l : List (List Char)) :
    List.modifyHead (fun h => h) l = l := by
  cases l <;> rfl

theorem modifyHead_append_distrib (f : List Char → List Char)
    (xs ys : List (List Char)) (hxs : xs ≠ []) :
    List.modifyHead f (xs ++ ys) = List.modifyHead f xs ++ ys := by
  cases xs with
  | nil => exact absurd rfl hxs
  | cons a t => rfl

theorem splitOnP_append_spaces (l s : List Char) (hs : ∀ c ∈ s, pyIsSpace c = true) :
    List.splitOnP pyIsSpace (l ++ s) =
      List.splitOnP pyIsSpace l ++ List.replicate s.length [] := by
  induction l with
  | nil =>
    simp only [List.nil_append]
    induction s with
    | nil => simp
    | cons c cs ih =>
      have hc : pyIsSpace c = true := hs c (by simp)
      rw [List.splitOnP_cons, if_pos hc, ih (fun d hd => hs d (by simp [hd]))]
      simp [List.replicate_succ]
  | cons a l ih =>
    by_cases ha : pyIsSpace a
    · rw [List.cons_append, List.splitOnP_cons, if_pos ha, ih,
        List.splitOnP_cons, if_pos ha, List.cons_append]
    · rw [List.cons_append, List.splitOnP_cons, if_neg ha, ih,
        List.splitOnP_cons, if_neg ha,
        modifyHead_append_distrib _ _ _ (List.splitOnP_ne_nil _ _)]

theorem splitOnP_spaces_append (s l : List Char) (hs : ∀ c ∈ s, pyIsSpace c = true) :
    List.splitOnP pyIsSpace (s ++ l) =
      List.replicate s.length [] ++ List.splitOnP pyIsSpace l := by
  induction s with
  | nil => simp
  | cons c cs ih =>
    have hc : pyIsSpace c = true := hs c (by simp)
    rw [List.cons_append, List.splitOnP_cons, if_pos hc,
      ih (fun d hd => hs d (by simp [hd]))]
    simp [List.replicate_succ]

theorem pyWords_append_spaces (l s : List Char) (hs : ∀ c ∈ s, pyIsSpace c = true) :
    pyWords (l ++ s) = pyWords l := by
  unfold pyWords
  rw [splitOnP_append_spaces l s hs, List.filter_append]
  have : (List.replicate s.length ([] : List Char)).filter (fun w => !w.isEmpty) = [] := by
    rw [List.filter_eq_nil_iff]
    intro a ha
    rw [List.eq_of_mem_replicate ha]
    decide
  rw [this, List.append_nil]

theorem pyWords_spaces_append (s l : List Char) (hs : ∀ c ∈ s, pyIsSpace c = true) :
    pyWords (s ++ l) = pyWords l := by
  unfold pyWords
  rw [splitOnP_spaces_append s l hs, List.filter_append]
  have : (List.replicate s.length ([] : List Char)).filter (fun w => !w.isEmpty) = [] := by
    rw [List.filter_eq_nil_iff]
    intro a ha
    rw [List.eq_of_mem_replicate ha]
    decide
  rw [this, List.nil_append]

theorem pyWords_ltrimL (l : List Char) : pyWords (ltrimL l) = pyWords l := by
  conv_rhs => rw [← List.takeWhile_append_dropWhile pyIsSpace l]
  rw [pyWords_spaces_append _ _ (fun c hc => List.mem_takeWhile_imp hc)]
  rfl

theorem pyWords_rtrimL (l : List Char) : pyWords (rtrimL l) = pyWords l := by
  obtain ⟨u, hu, hsp⟩ := rtrimL_append_spaces l
  conv_rhs => rw [hu]
  rw [pyWords_append_spaces _ _ hsp]

theorem pyWords_trimL (l : List Char) : pyWords (trimL l) = pyWords l := by
  show pyWords (rtrimL (ltrimL l)) = pyWords l
  rw [pyWords_rtrimL, pyWords_ltrimL]

theorem joinWords_nil : joinWords [] = [] := by
  simp [joinWords, List.intercalate]

theorem joinWords_single (w : List Char) : joinWords [w] = w := by
  simp [joinWords, List.intercalate]

theorem joinWords_cons_cons (w v : List Char) (t : List (List Char)) :
    joinWords (w :: v :: t) = w ++ ' ' :: joinWords (v :: t) := by
  simp [joinWords, List.intercalate, List.intersperse]

theorem splitOnP_word_append (w l : List Char) (hw : ∀ c ∈ w, pyIsSpace c = false) :
    List.splitOnP pyIsSpace (w ++ l) =
      List.modifyHead (fun h => w ++ h) (List.splitOnP pyIsSpace l) := by
  induction w with
  | nil =>
    simp only [List.nil_append]
    rw [modifyHead_id_fun]
  | cons a w ih =>
    have ha : ¬ pyIsSpace a = true := by simp [hw a (by simp)]
    rw [List.cons_append, List.splitOnP_cons, if_neg ha,
      ih (fun c hc => hw c (by simp [hc])), List.modifyHead_modifyHead]
    congr 1

theorem splitOnP_chars (l : List Char) :
    ∀ w ∈ List.splitOnP pyIsSpace l, ∀ c ∈ w, pyIsSpace c = false := by
  induction l with
  | nil =>
    intro w hw c hc
    simp only [List.splitOnP_nil, List.mem_singleton] at hw
    subst hw
    simp at hc
  | cons a t ih =>
    intro w hw c hc
    rw [List.splitOnP_cons] at hw
    by_cases ha : pyIsSpace a
    · rw [if_pos ha] at hw
      rcases List.mem_cons.mp hw with rfl | h
      · simp at hc
      · exact ih w h c hc
    · rw [if_neg ha] at hw
      rcases hsp : List.splitOnP pyIsSpace t with _ | ⟨h0, t0⟩
      · exact absurd hsp (List.splitOnP_ne_nil _ _)
      · rw [hsp] at hw
        simp only [List.modifyHead] at hw
        rcases List.mem_cons.mp hw with rfl | h
        · rcases List.mem_cons.mp hc with rfl | hc2
          · simpa using ha
          · exact ih h0 (by rw [hsp]; exact List.mem_cons_self h0 t0) c hc2
        · exact ih w (by rw [hsp]; exact List.mem_cons_of_mem h0 h) c hc

theorem pyWords_good (l : List Char) :
    ∀ w ∈ pyWords l, w ≠ [] ∧ ∀ c ∈ w, pyIsSpace c = false := by
  intro w hw
  refine ⟨by simpa using List.of_mem_filter hw, ?_⟩
  exact splitOnP_chars l w (List.mem_of_mem_filter hw)

theorem pyWords_joinWords (ws : List (List Char))
    (hgood : ∀ w ∈ ws, w ≠ [] ∧ ∀ c ∈ w, pyIsSpace c = false) :
    pyWords (joinWords ws) = ws := by
  induction ws with
  | nil =>
    rw [joinWords_nil]
    rfl
  | cons w t ih =>
    obtain ⟨hwne, hwsp⟩ := hgood w (by simp)
    cases t with
    | nil =>
      rw [joinWords_single]
      unfold pyWords
      rw [show w = w ++ [] from by simp, splitOnP_word_append w [] hwsp]
      simp only [List.splitOnP_nil, List.modifyHead, List.append_nil]
      rw [List.filter_cons_of_pos (by simpa using hwne), List.filter_nil]
    | cons v t2 =>
      rw [joinWords_cons_cons]
      unfold pyWords
      rw [splitOnP_word_append w _ hwsp, List.splitOnP_cons, if_pos (by decide)]
      rcases hsp : List.splitOnP pyIsSpace (joinWords (v :: t2)) with _ | ⟨h0, t0⟩
      · exact absurd hsp (List.splitOnP_ne_nil _ _)
      · simp only [List.modifyHead, List.append_nil]
        rw [List.filter_cons_of_pos (by simpa using hwne)]
        have ihv := ih (fun u hu => hgood u (by simp [hu]))
        unfold pyWords at ihv
        rw [hsp] at ihv
        rw [ihv]

theorem cleanCell_data (s : String) :
    (cleanCell s).data = joinWords (pyWords s.data) := by
  show joinWords (pyWords (trimL s.data)) = joinWords (pyWords s.data)
  rw [pyWords_trimL]

theorem cleanCell_cleanCell (s : String) : cleanCell (cleanCell s) = cleanCell s := by
  show String.mk (joinWords (pyWords (trimL (cleanCell s).data))) =
    String.mk (joinWords (pyWords (trimL s.data)))
  rw [pyWords_trimL, pyWords_trimL, cleanCell_data,
    pyWords_joinWords (pyWords s.data) (pyWords_good s.data)]

theorem trimL_eq_nil_iff (l : List Char) :
    trimL l = [] ↔ ∀ c ∈ l, pyIsSpace c = true := by
  constructor
  · intro h c hc
    by_contra hns
    have hlt : ltrimL l ≠ [] := by
      intro hl
      rw [ltrimL, List.dropWhile_eq_nil_iff] at hl
      exact hns (hl c hc)
    obtain ⟨d, ds, hds, hd⟩ := ltrimL_head_not_space hlt
    have : rtrimL (d :: ds) = [] := by rw [← hds]; exact h
    unfold rtrimL at this
    rw [List.reverse_eq_nil_iff, List.dropWhile_eq_nil_iff] at this
    have hdm : d ∈ (d :: ds).reverse := by simp
    have := this d hdm
    rw [this] at hd
    exact Bool.noConfusion hd
  · intro h
    have h1 : ltrimL l = [] := by
      rw [ltrimL, List.dropWhile_eq_nil_iff]
      exact h
    rw [trimL, h1]
    rfl

theorem pyWords_eq_nil_iff (l : List Char) :
    pyWords l = [] ↔ ∀ c ∈ l, pyIsSpace c = true := by
  constructor
  · intro h c hc
    by_contra hns
    induction l with
    | nil => simp at hc
    | cons a t ih =>
      rw [pyWords] at h
      rw [List.splitOnP_cons] at h
      by_cases ha : pyIsSpace a
      · rcases List.mem_cons.mp hc with rfl | hc'
        · exact hns ha
        · rw [if_pos ha] at h
          rw [List.filter_cons_of_neg (by decide)] at h
          exact ih (by rw [pyWords]; exact h) hc'
      · rw [if_neg ha] at h
        rcases hsp : List.splitOnP pyIsSpace t with _ | ⟨h0, t0⟩
        · exact absurd hsp (List.splitOnP_ne_nil _ _)
        · rw [hsp] at h
          simp only [List.modifyHead] at h
          rw [List.filter_cons_of_pos (by simp)] at h
          exact List.noConfusion h
  · intro h
    induction l with
    | nil => rfl
    | cons a t ih =>
      have ha : pyIsSpace a = true := h a (by simp)
      rw [pyWords, List.splitOnP_cons, if_pos ha, List.filter_cons_of_neg (by decide)]
      exact ih (fun c hc => h c (by simp [hc]))

theorem cellNonBlank_cleanCell (s : String) :
    cellNonBlank (cleanCell s) = cellNonBlank s := by
  unfold cellNonBlank
  have h1 : (trimL (cleanCell s).data = []) ↔ (trimL s.data = []) := by
    rw [trimL_eq_nil_iff, trimL_eq_nil_iff, ← pyWords_eq_nil_iff, ← pyWords_eq_nil_iff,
      cleanCell_data, pyWords_joinWords (pyWords s.data) (pyWords_good s.data)]
  by_cases h : trimL s.data = []
  · rw [h, h1.mpr h]
  · have h2 : trimL (cleanCell s).data ≠ [] := fun hh => h (h1.mp hh)
    cases hA : (trimL (cleanCell s).data).isEmpty
    · cases hB : (trimL s.data).isEmpty
      · rfl
      · exact absurd (List.isEmpty_iff.mp hB) h
    · exact absurd (List.isEmpty_iff.mp hA) h2

theorem stringSimilarity_pyStripLower (a b : String) :
    stringSimilarity (pyStripLower a) (pyStripLower b) = stringSimilarity a b := by
  unfold stringSimilarity stringSimilarityL
  rw [pynormL_pyStripLower, pynormL_pyStripLower]

theorem hv_exclusive {x0 y0 x1 y1 : ℚ}
    (hlen : ¬ ((x1 - x0) ^ 2 + (y1 - y0) ^ 2 < 100)) (hy : |y1 - y0| < 3) :
    ¬ (|x1 - x0| < 3) := by
  intro hx
  apply hlen
  have h1 : |x1 - x0| ^ 2 < 9 := by
    have := abs_nonneg (x1 - x0)
    nlinarith
  have h2 : |y1 - y0| ^ 2 < 9 := by
    have := abs_nonneg (y1 - y0)
    nlinarith
  rw [sq_abs] at h1 h2
  linarith

theorem lineStep_eq (acc : Nat × Nat) (it : DrawItem) :
    lineStep acc it = (acc.1 + (if isHorizontalLine it then 1 else 0),
      acc.2 + (if isVerticalLine it then 1 else 0)) := by
  cases it with
  | other => simp [lineStep, isHorizontalLine, isVerticalLine]
  | line x0 y0 x1 y1 =>
    by_cases hlen : (x1 - x0) ^ 2 + (y1 - y0) ^ 2 < 100
    · simp [lineStep, isHorizontalLine, isVerticalLine, hlen]
    · by_cases hy : |y1 - y0| < 3
      · have hx : ¬ (|x1 - x0| < 3) := hv_exclusive hlen hy
        simp [lineStep, isHorizontalLine, isVerticalLine, hlen, hy, hx]
      · by_cases hx : |x1 - x0| < 3
        · simp [lineStep, isHorizontalLine, isVerticalLine, hlen, hy, hx]
        · simp [lineStep, isHorizontalLine, isVerticalLine, hlen, hy, hx]

theorem foldl_lineStep (l : List DrawItem) (acc : Nat × Nat) :
    l.foldl lineStep acc =
      (acc.1 + l.countP isHorizontalLine, acc.2 + l.countP isVerticalLine) := by
  induction l generalizing acc with
  | nil => simp
  | cons it t ih =>
    rw [List.foldl_cons, lineStep_eq, ih, List.countP_cons, List.countP_cons]
    simp only [Prod.mk.injEq]
    constructor <;> (split <;> omega)

theorem foldl_paths (paths : List DrawPath) (acc : Nat × Nat) :
    paths.foldl (fun a path => path.items.foldl lineStep a) acc =
      (acc.1 + ((paths.map DrawPath.items).flatten).countP isHorizontalLine,
       acc.2 + ((paths.map DrawPath.items).flatten).countP isVerticalLine) := by
  induction paths generalizing acc with
  | nil => simp
  | cons path t ih =>
    rw [List.foldl_cons, ih, foldl_lineStep]
    simp only [List.map_cons, List.flatten_cons, List.countP_append, Prod.mk.injEq]
    constructor <;> omega

theorem countLines_eq (p : PageData) :
    countLines p.drawings = (specHLines p, specVLines p) := by
  unfold countLines specHLines specVLines allItems
  rw [foldl_paths]
  simp

theorem detectCore_iff (p : PageData) :
    detectTableBordersCore p = true ↔
      ((5 ≤ specHLines p ∧ 3 ≤ specVLines p) ∨ 10 ≤ specRectangles p ∨
        ∃ b ∈ p.blocks, b.blockType = some 1) := by
  unfold detectTableBordersCore
  rw [countLines_eq]
  show (if (5 ≤ specHLines p ∧ 3 ≤ specVLines p) ∨ 10 ≤ specRectangles p then true
    else p.blocks.any (fun b => b.blockType = some 1)) = true ↔ _
  by_cases hc : (5 ≤ specHLines p ∧ 3 ≤ specVLines p) ∨ 10 ≤ specRectangles p
  · rw [if_pos hc]
    constructor
    · intro _
      rcases hc with h | h
      · exact Or.inl h
      · exact Or.inr (Or.inl h)
    · intro _
      rfl
  · rw [if_neg hc]
    rw [List.any_eq_true]
    constructor
    · intro h
      obtain ⟨b, hb, hb1⟩ := h
      exact Or.inr (Or.inr ⟨b, hb, by simpa using hb1⟩)
    · intro h
      rcases h with h | h | ⟨b, hb, hb1⟩
      · exact absurd (Or.inl h) hc
      · exact absurd (Or.inr h) hc
      · exact ⟨b, hb, by simpa using hb1⟩

theorem foldl_min_const (as : List Nat) (n : Nat) (h : ∀ x ∈ as, x = n) :
    as.foldl min n = n := by
  induction as with
  | nil => rfl
  | cons a t ih =>
    rw [List.foldl_cons, h a (by simp), min_self]
    exact ih (fun x hx => h x (by simp [hx]))

theorem map_length_min? {d : List (List String)} {n : Nat}
    (hne : d ≠ []) (hrect : ∀ r ∈ d, r.length = n) :
    (d.map List.length).min? = some n := by
  cases d with
  | nil => exact absurd rfl hne
  | cons a t =>
    show ((a.length :: t.map List.length).min?) = some n
    show some ((t.map List.length).foldl min a.length) = some n
    rw [hrect a (by simp)]
    congr 1
    exact foldl_min_const _ n (by
      intro x hx
      obtain ⟨r, hr, rfl⟩ := List.mem_map.mp hx
      exact hrect r (by simp [hr]))

theorem pyTranspose_eq {d : List (List String)} {n : Nat}
    (hne : d ≠ []) (hrect : ∀ r ∈ d, r.length = n) :
    pyTranspose d = (List.range n).map (fun i => d.map (fun r => r.getD i "")) := by
  unfold pyTranspose
  rw [map_length_min? hne hrect]
  rfl

theorem range_map_getD (l : List String) :
    (List.range l.length).map (fun i => l.getD i "") = l := by
  apply List.ext_getElem
  · simp
  · intro i h1 h2
    simp only [List.getElem_map, List.getElem_range]
    exact List.getD_eq_getElem l "" h2

theorem getD_map_lt {l : List (List String)} {f : List String → String} {j : Nat}
    (h : j < l.length) (dflt : String) : (l.map f).getD j dflt = f l[j] := by
  rw [List.getD_eq_getElem _ _ (by simpa using h), List.getElem_map]

theorem getD_map_lt2 {l : List (List String)} {f : List String → List String} {j : Nat}
    (h : j < l.length) (dflt : List String) : (l.map f).getD j dflt = f l[j] := by
  rw [List.getD_eq_getElem _ _ (by simpa using h), List.getElem_map]

theorem pyTranspose_pyTranspose {d : List (List String)} {n : Nat}
    (hne : d ≠ []) (hn : 1 ≤ n) (hrect : ∀ r ∈ d, r.length = n) :
    pyTranspose (pyTranspose d) = d := by
  rw [pyTranspose_eq hne hrect]
  have hTne : (List.range n).map (fun i => d.map (fun r => r.getD i "")) ≠ [] := by
    simp only [ne_eq, List.map_eq_nil_iff, List.range_eq_nil]
    omega
  have hTrect : ∀ c ∈ (List.range n).map (fun i => d.map (fun r => r.getD i "")),
      c.length = d.length := by
    intro c hc
    obtain ⟨i, _, rfl⟩ := List.mem_map.mp hc
    simp
  rw [pyTranspose_eq hTne hTrect]
  apply List.ext_getElem
  · simp
  · intro j h1 h2
    have hj : j < d.length := by simpa using h1
    simp only [List.getElem_map, List.getElem_range, List.map_map]
    have hcell : ∀ i : Nat, ((fun i => d.map (fun r => r.getD i "")) ∘ (fun c => c)) = _ := fun _ => rfl
    calc ((List.range n).map ((fun c => c.getD j "") ∘ fun i => d.map (fun r => r.getD i "")))
        = (List.range n).map (fun i => d[j].getD i "") := by
          apply List.map_congr_left
          intro i _
          show (d.map (fun r => r.getD i "")).getD j "" = d[j].getD i ""
          exact getD_map_lt hj ""
      _ = d[j] := by
          have hlen : d[j].length = n := hrect d[j] (List.getElem_mem hj)
          rw [← hlen]
          exact range_map_getD d[j]

theorem refine_of_none {t : Table} (ht : t.data = none) : refineTableStructure t = t := by
  unfold refineTableStructure
  rw [ht]

theorem refine_of_empty {t : Table} (ht : t.data = some []) : refineTableStructure t = t := by
  unfold refineTableStructure
  rw [ht]
  simp

theorem refine_eq_no_promo {t : Table} {data0 : List (List String)}
    (ht : t.data = some data0) (hne : data0 ≠ []) (hh : t.headers ≠ []) :
    refineTableStructure t = { t with
      data := some ((pruneEmptyCols (pruneEmptyRows data0)).map (fun row => row.map cleanCell)),
      headers := t.headers.map cleanCell,
      refined := true } := by
  unfold refineTableStructure
  rw [ht]
  have h1 : data0.isEmpty = false := by simpa using hne
  have h2 : t.headers.isEmpty = false := by simpa using hh
  simp [h1, h2]

theorem pruneEmptyRows_eq_self {d : List (List String)}
    (h : ∀ r ∈ d, r.any cellNonBlank = true) : pruneEmptyRows d = d :=
  List.filter_eq_self.mpr h

theorem pruneEmptyCols_eq_self {d : List (List String)} {k : Nat}
    (hne : d ≠ []) (hk : 1 ≤ k) (hrect : ∀ r ∈ d, r.length = k)
    (hcols : ∀ c ∈ pyTranspose d, c.any cellNonBlank = true) :
    pruneEmptyCols d = d := by
  unfold pruneEmptyCols
  have h1 : d.isEmpty = false := by simpa using hne
  rw [h1]
  simp only [Bool.not_false, if_true]
  rw [List.filter_eq_self.mpr hcols]
  have hTne : pyTranspose d ≠ [] := by
    rw [pyTranspose_eq hne hrect]
    simp only [ne_eq, List.map_eq_nil_iff, List.range_eq_nil]
    omega
  have h2 : (pyTranspose d).isEmpty = false := by simpa using hTne
  rw [h2]
  simp only [Bool.not_false, if_true]
  exact pyTranspose_pyTranspose hne hk hrect

theorem exists_idx_of_any {r : List String} (h : r.any cellNonBlank = true) :
    ∃ j, ∃ hj : j < r.length, cellNonBlank r[j] = true := by
  obtain ⟨c, hc, hcb⟩ := List.any_eq_true.mp h
  obtain ⟨j, hj, rfl⟩ := List.getElem_of_mem hc
  exact ⟨j, hj, hcb⟩

theorem col_mem_pyTranspose {d : List (List String)} {k j : Nat}
    (hne : d ≠ []) (hrect : ∀ r ∈ d, r.length = k) (hj : j < k) :
    d.map (fun r => r.getD j "") ∈ pyTranspose d := by
  rw [pyTranspose_eq hne hrect]
  exact List.mem_map.mpr ⟨j, List.mem_range.mpr hj, rfl⟩

theorem pruneEmptyCols_of_ne {d : List (List String)} (hne : d ≠ [])
    (htr : (pyTranspose d).filter (fun col => col.any cellNonBlank) ≠ []) :
    pruneEmptyCols d =
      pyTranspose ((pyTranspose d).filter (fun col => col.any cellNonBlank)) := by
  unfold pruneEmptyCols
  have h1 : d.isEmpty = false := by simpa using hne
  have h2 : ((pyTranspose d).filter (fun col => col.any cellNonBlank)).isEmpty = false := by
    simpa using htr
  simp [h1, h2]

theorem pruneCols_props {d1 : List (List String)} {k : Nat}
    (hne : d1 ≠ []) (hrect : ∀ r ∈ d1, r.length = k)
    (hrows : ∀ r ∈ d1, r.any cellNonBlank = true) :
    pruneEmptyCols d1 ≠ [] ∧
    (∃ m, 1 ≤ m ∧ ∀ r ∈ pruneEmptyCols d1, r.length = m) ∧
    (∀ r ∈ pruneEmptyCols d1, r.any cellNonBlank = true) ∧
    (∀ c ∈ pyTranspose (pruneEmptyCols d1), c.any cellNonBlank = true) := by
  have hk : 1 ≤ k := by
    obtain ⟨r0, hr0⟩ := List.exists_mem_of_ne_nil d1 hne
    have hany := hrows r0 hr0
    have hr0ne : r0 ≠ [] := by
      intro h
      rw [h] at hany
      simp at hany
    rw [← hrect r0 hr0]
    exact List.length_pos.mpr hr0ne
  have hcolany : ∀ r ∈ d1, ∃ j, j < k ∧ cellNonBlank (r.getD j "") = true ∧
      (d1.map (fun row => row.getD j "")).any cellNonBlank = true := by
    intro r hr
    obtain ⟨j, hj, hcb⟩ := exists_idx_of_any (hrows r hr)
    have hjk : j < k := by
      rw [← hrect r hr]
      exact hj
    have hcell : cellNonBlank (r.getD j "") = true := by
      rw [List.getD_eq_getElem r "" hj]
      exact hcb
    refine ⟨j, hjk, hcell, ?_⟩
    rw [List.any_eq_true]
    exact ⟨r.getD j "", List.mem_map.mpr ⟨r, hr, rfl⟩, hcell⟩
  have htr1ne : (pyTranspose d1).filter (fun col => col.any cellNonBlank) ≠ [] := by
    obtain ⟨r0, hr0⟩ := List.exists_mem_of_ne_nil d1 hne
    obtain ⟨j, hjk, _, hca⟩ := hcolany r0 hr0
    exact List.ne_nil_of_mem (List.mem_filter.mpr
      ⟨col_mem_pyTranspose hne hrect hjk, hca⟩)
  have htr1rect : ∀ c ∈ (pyTranspose d1).filter (fun col => col.any cellNonBlank),
      c.length = d1.length := by
    intro c hc
    have hc0 := List.mem_of_mem_filter hc
    rw [pyTranspose_eq hne hrect] at hc0
    obtain ⟨i, _, rfl⟩ := List.mem_map.mp hc0
    simp
  have hd1len : 1 ≤ d1.length := List.length_pos.mpr hne
  have htr1len : 1 ≤ ((pyTranspose d1).filter (fun col => col.any cellNonBlank)).length :=
    List.length_pos.mpr htr1ne
  have hd2 := pruneEmptyCols_of_ne hne htr1ne
  have hd2eq : pyTranspose ((pyTranspose d1).filter (fun col => col.any cellNonBlank)) =
      (List.range d1.length).map
        (fun i => ((pyTranspose d1).filter (fun col => col.any cellNonBlank)).map
          (fun c => c.getD i "")) :=
    pyTranspose_eq htr1ne htr1rect
  refine ⟨?_, ?_, ?_, ?_⟩
  · rw [hd2, hd2eq]
    simp only [ne_eq, List.map_eq_nil_iff, List.range_eq_nil]
    omega
  · refine ⟨((pyTranspose d1).filter (fun col => col.any cellNonBlank)).length,
      htr1len, ?_⟩
    intro r hr
    rw [hd2, hd2eq] at hr
    obtain ⟨i, _, rfl⟩ := List.mem_map.mp hr
    simp
  · intro r hr
    rw [hd2, hd2eq] at hr
    obtain ⟨i, hi, rfl⟩ := List.mem_map.mp hr
    have hid1 : i < d1.length := List.mem_range.mp hi
    obtain ⟨j, hjk, hcell, hca⟩ := hcolany d1[i] (List.getElem_mem hid1)
    have hcolmem : d1.map (fun row => row.getD j "") ∈
        (pyTranspose d1).filter (fun col => col.any cellNonBlank) :=
      List.mem_filter.mpr ⟨col_mem_pyTranspose hne hrect hjk, hca⟩
    rw [List.any_eq_true]
    refine ⟨(d1.map (fun row => row.getD j "")).getD i "",
      List.mem_map.mpr ⟨_, hcolmem, rfl⟩, ?_⟩
    rw [getD_map_lt hid1]
    exact hcell
  · intro c hc
    rw [hd2] at hc
    rw [pyTranspose_pyTranspose htr1ne hd1len htr1rect] at hc
    exact (List.mem_filter.mp hc).2

theorem any_cellNonBlank_map_clean (r : List String) :
    (r.map cleanCell).any cellNonBlank = r.any cellNonBlank := by
  rw [List.any_map]
  have h : cellNonBlank ∘ cleanCell = cellNonBlank := funext cellNonBlank_cleanCell
  rw [h]

theorem map_clean_idem (r : List String) :
    (r.map cleanCell).map cleanCell = r.map cleanCell := by
  rw [List.map_map]
  apply List.map_congr_left
  intro c _
  exact cleanCell_cleanCell c

theorem pyTranspose_map_clean {d : List (List String)} {k : Nat}
    (hne : d ≠ []) (hrect : ∀ r ∈ d, r.length = k) :
    pyTranspose (d.map (fun row => row.map cleanCell)) =
      (pyTranspose d).map (fun col => col.map cleanCell) := by
  have hne2 : d.map (fun row => row.map cleanCell) ≠ [] := by simpa using hne
  have hrect2 : ∀ r ∈ d.map (fun row => row.map cleanCell), r.length = k := by
    intro r hr
    obtain ⟨s, hs, rfl⟩ := List.mem_map.mp hr
    simp [hrect s hs]
  rw [pyTranspose_eq hne2 hrect2, pyTranspose_eq hne hrect, List.map_map]
  apply List.map_congr_left
  intro i hi
  have hik : i < k := List.mem_range.mp hi
  show (d.map (fun row => row.map cleanCell)).map (fun r => r.getD i "") =
    (d.map (fun r => r.getD i "")).map cleanCell
  rw [List.map_map, List.map_map]
  apply List.map_congr_left
  intro r hr
  show (r.map cleanCell).getD i "" = cleanCell (r.getD i "")
  have hir : i < r.length := by
    rw [hrect r hr]
    exact hik
  rw [List.getD_eq_getElem _ _ (by simpa using hir), List.getElem_map,
    List.getD_eq_getElem _ _ hir]

theorem headD_mem {d : List (List String)} (hne : d ≠ []) : d.headD [] ∈ d := by
  cases d with
  | nil => exact absurd rfl hne
  | cons a t => exact List.mem_cons_self a t

theorem refine_refine_of_headers_rect (t : Table) (hh : t.headers ≠ [])
    (hrect : ∀ d, t.data = some d → ∀ r1 ∈ d, ∀ r2 ∈ d, r1.length = r2.length) :
    refineTableStructure (refineTableStructure t) = refineTableStructure t := by
  rcases ht : t.data with _ | d0
  · rw [refine_of_none ht, refine_of_none ht]
  · by_cases hne0 : d0 = []
    · subst hne0
      rw [refine_of_empty ht, refine_of_empty ht]
    · have hrect0 : ∀ r ∈ d0, r.length = (d0.headD []).length := by
        intro r hr
        exact hrect d0 ht r hr (d0.headD []) (headD_mem hne0)
      have hT1 := refine_eq_no_promo ht hne0 hh
      by_cases hd1 : pruneEmptyRows d0 = []
      · rw [hT1]
        apply refine_of_empty
        rw [hd1]
        rfl
      · have hrect1 : ∀ r ∈ pruneEmptyRows d0, r.length = (d0.headD []).length :=
          fun r hr => hrect0 r (List.mem_of_mem_filter hr)
        have hrows1 : ∀ r ∈ pruneEmptyRows d0, r.any cellNonBlank = true :=
          fun r hr => (List.mem_filter.mp hr).2
        obtain ⟨hd2ne, ⟨m, hm1, hd2rect⟩, hd2rows, hd2cols⟩ :=
          pruneCols_props hd1 hrect1 hrows1
        rw [hT1]
        have hDne : (pruneEmptyCols (pruneEmptyRows d0)).map
            (fun row => row.map cleanCell) ≠ [] := by
          simpa using hd2ne
        have hDrect : ∀ r ∈ (pruneEmptyCols (pruneEmptyRows d0)).map
            (fun row => row.map cleanCell), r.length = m := by
          intro r hr
          obtain ⟨s, hs, rfl⟩ := List.mem_map.mp hr
          simp [hd2rect s hs]
        have hDrows : ∀ r ∈ (pruneEmptyCols (pruneEmptyRows d0)).map
            (fun row => row.map cleanCell), r.any cellNonBlank = true := by
          intro r hr
          obtain ⟨s, hs, rfl⟩ := List.mem_map.mp hr
          rw [any_cellNonBlank_map_clean]
          exact hd2rows s hs
        have hDcols : ∀ c ∈ pyTranspose ((pruneEmptyCols (pruneEmptyRows d0)).map
            (fun row => row.map cleanCell)), c.any cellNonBlank = true := by
          intro c hc
          rw [pyTranspose_map_clean hd2ne hd2rect] at hc
          obtain ⟨s, hs, rfl⟩ := List.mem_map.mp hc
          rw [any_cellNonBlank_map_clean]
          exact hd2cols s hs
        have hHne : t.headers.map cleanCell ≠ [] := by
          simpa using hh
        have hstep := refine_eq_no_promo (show ({ t with
          data := some ((pruneEmptyCols (pruneEmptyRows d0)).map
            (fun row => row.map cleanCell)),
          headers := t.headers.map cleanCell,
          refined := true } : Table).data =
            some ((pruneEmptyCols (pruneEmptyRows d0)).map
              (fun row => row.map cleanCell)) from rfl) hDne hHne
        rw [hstep]
        rw [pruneEmptyRows_eq_self hDrows, pruneEmptyCols_eq_self hDne hm1 hDrect hDcols]
        have hdata : ((pruneEmptyCols (pruneEmptyRows d0)).map
            (fun row => row.map cleanCell)).map (fun row => row.map cleanCell) =
            (pruneEmptyCols (pruneEmptyRows d0)).map (fun row => row.map cleanCell) := by
          rw [List.map_map]
          apply List.map_congr_left
          intro r _
          exact map_clean_idem r
        have hhead : (t.headers.map cleanCell).map cleanCell = t.headers.map cleanCell :=
          map_clean_idem t.headers
        rw [hdata, hhead]

theorem countP_zip_norm (h1 h2 : List String) :
    ((h1.map pyStripLower).zip (h2.map pyStripLower)).countP
      (fun p => decide (stringSimilarity p.1 p.2 > 8 / 10)) =
    (h1.zip h2).countP (fun p => decide (stringSimilarity p.1 p.2 > 8 / 10)) := by
  rw [List.zip_map, List.countP_map]
  apply List.countP_congr
  intro p _
  show (decide (stringSimilarity (pyStripLower p.1) (pyStripLower p.2) > 8 / 10) = true) ↔ _
  rw [stringSimilarity_pyStripLower]

theorem areHeadersSimilar_iff (h1 h2 : List String) :
    areHeadersSimilar h1 h2 = true ↔ headersSimilarSpec h1 h2 := by
  unfold areHeadersSimilar headersSimilarSpec
  cases h1 with
  | nil => simp
  | cons a t1 =>
    cases h2 with
    | nil => simp
    | cons b t2 =>
      simp only [List.isEmpty_cons, Bool.or_self, Bool.false_or, Bool.false_eq_true,
        if_false]
      rw [countP_zip_norm (a :: t1) (b :: t2)]
      simp only [List.length_map]
      by_cases hlen : (a :: t1).length = (b :: t2).length
      · rw [if_neg (by simp [hlen])]
        simp only [decide_eq_true_eq]
        constructor
        · intro hr
          refine ⟨hlen, by simp, ?_⟩
          simpa using hr
        · intro ⟨_, _, hr⟩
          simpa using hr
      · rw [if_pos (by simpa using hlen)]
        constructor
        · intro hr
          exact absurd hr (by simp)
        · intro ⟨hl, _, _⟩
          exact absurd hl hlen

theorem mergeScan_merge (t1 t2 : Table) (rest : List Table)
    (hpage : t2.page = t1.page + 1) (hrel : areTablesRelated t1 t2 = true) :
    mergeScan (t1 :: t2 :: rest) = mergeTables t1 t2 :: mergeScan rest := by
  rw [mergeScan]
  have hcond : (decide (t2.page = t1.page + 1) && areTablesRelated t1 t2) = true := by
    rw [hrel]
    simp [hpage]
  rw [if_pos hcond]

theorem handleWith_error (scanStep : List Table → Except Unit (List Table))
    (tables : List Table) (h : scanStep (sortTables tables) = Except.error ()) :
    handleCrossPageTablesWith scanStep tables =
      (if tables.length < 2 then tables else sortTables tables) := by
  unfold handleCrossPageTablesWith
  by_cases hlen : tables.length < 2
  · rw [if_pos hlen, if_pos hlen]
  · rw [if_neg hlen, if_neg hlen]
    show (match scanStep (sortTables tables) with
      | Except.ok merged => merged
      | Except.error _ => sortTables tables) = sortTables tables
    rw [h]

theorem tableLE_total (a b : Table) : (tableLE a b || tableLE b a) = true := by
  unfold tableLE
  rcases Nat.lt_trichotomy (tableSortKey a).1 (tableSortKey b).1 with h | h | h
  · simp [h]
  · rcases le_total (tableSortKey a).2 (tableSortKey b).2 with h2 | h2
    · simp [h, h2]
    · simp [h, h2]
  · simp [h]

theorem tableLE_trans (a b c : Table) (h1 : tableLE a b = true) (h2 : tableLE b c = true) :
    tableLE a c = true := by
  unfold tableLE at h1 h2 ⊢
  simp only [Bool.or_eq_true, Bool.and_eq_true, decide_eq_true_eq] at h1 h2 ⊢
  rcases h1 with h1 | ⟨h1e, h1q⟩ <;> rcases h2 with h2 | ⟨h2e, h2q⟩
  · exact Or.inl (Nat.lt_trans h1 h2)
  · exact Or.inl (by rw [← h2e]; exact h1)
  · exact Or.inl (by rw [h1e]; exact h2)
  · exact Or.inr ⟨h1e.trans h2e, le_trans h1q h2q⟩

theorem mergeSort_pair {a b : Table} (hne : a ≠ b) (hab : tableLE a b = false) :
    sortTables [a, b] = [b, a] := by
  have hperm : (sortTables [a, b]).Perm [a, b] := List.mergeSort_perm [a, b] tableLE
  have hsorted : List.Pairwise (fun s t => tableLE s t = true) (sortTables [a, b]) :=
    List.sorted_mergeSort tableLE_trans tableLE_total [a, b]
  have hlen : (sortTables [a, b]).length = 2 := hperm.length_eq
  obtain ⟨x, y, hxy⟩ : ∃ x y, sortTables [a, b] = [x, y] := by
    rcases hs : sortTables [a, b] with _ | ⟨x, t⟩
    · rw [hs] at hlen
      simp at hlen
    · rcases t with _ | ⟨y, t2⟩
      · rw [hs] at hlen
        simp at hlen
      · rcases t2 with _ | ⟨z, t3⟩
        · exact ⟨x, y, rfl⟩
        · rw [hs] at hlen
          simp at hlen
  rw [hxy] at hperm hsorted
  have hxyle : tableLE x y = true := (List.pairwise_cons.mp hsorted).1 y (by simp)
  have hxmem : x ∈ [a, b] := hperm.mem_iff.mp (by simp)
  have hbmem : b ∈ [x, y] := hperm.mem_iff.mpr (by simp)
  have hamem : a ∈ [x, y] := hperm.mem_iff.mpr (by simp)
  rw [hxy]
  rcases List.mem_cons.mp hxmem with rfl | hx2
  · have hyb : y = b := by
      rcases List.mem_cons.mp hbmem with h | h
      · exact absurd h.symm hne
      · exact (List.mem_singleton.mp h).symm
    rw [hyb] at hxyle
    rw [hab] at hxyle
    exact Bool.noConfusion hxyle
  · have hxb : x = b := List.mem_singleton.mp hx2
    subst hxb
    have hya : y = a := by
      rcases List.mem_cons.mp hamem with h | h
      · exact absurd h hne
      · exact (List.mem_singleton.mp h).symm
    rw [hya]

theorem mergeTables_rows (t1 t2 : Table) : (mergeTables t1 t2).rows = t1.rows := by
  unfold mergeTables
  rcases h1 : t1.data with _ | d1 <;> rcases h2 : t2.data with _ | d2 <;> simp

theorem mergeTables_context (t1 t2 : Table) : (mergeTables t1 t2).context = t1.context := by
  unfold mergeTables
  rcases h1 : t1.data with _ | d1 <;> rcases h2 : t2.data with _ | d2 <;> simp

theorem mergeTables_bbox (t1 t2 : Table) : (mergeTables t1 t2).bbox = t1.bbox := by
  unfold mergeTables
  rcases h1 : t1.data with _ | d1 <;> rcases h2 : t2.data with _ | d2 <;> simp

theorem mergeTables_headers (t1 t2 : Table) : (mergeTables t1 t2).headers = t1.headers := by
  unfold mergeTables
  rcases h1 : t1.data with _ | d1 <;> rcases h2 : t2.data with _ | d2 <;> simp

theorem mergeTables_page_range (t1 t2 : Table) :
    (mergeTables t1 t2).page_range = some [t1.page, t2.page] := by
  unfold mergeTables
  rcases h1 : t1.data with _ | d1 <;> rcases h2 : t2.data with _ | d2 <;> simp

theorem mergeTables_method (t1 t2 : Table) :
    (mergeTables t1 t2).extraction_method = t1.extraction_method ++ "_cross_page" := by
  unfold mergeTables
  rcases h1 : t1.data with _ | d1 <;> rcases h2 : t2.data with _ | d2 <;> simp

theorem mergeTables_cross_page (t1 t2 : Table) : (mergeTables t1 t2).is_cross_page = true := by
  unfold mergeTables
  rcases h1 : t1.data with _ | d1 <;> rcases h2 : t2.data with _ | d2 <;> simp

theorem mergeTables_text (t1 t2 : Table) :
    (mergeTables t1 t2).text = t1.text ++ "\n" ++ t2.text := by
  unfold mergeTables
  rcases h1 : t1.data with _ | d1 <;> rcases h2 : t2.data with _ | d2 <;> simp

theorem mergeTables_data_none {t1 t2 : Table} (h : t2.data = none) :
    (mergeTables t1 t2).data = t1.data := by
  unfold mergeTables
  rcases h1 : t1.data with _ | d1 <;> simp [h, h1]

theorem mergeTables_data_some {t1 t2 : Table} {d1 d2 : List (List String)}
    (h1 : t1.data = some d1) (h2 : t2.data = some d2)
    (hne1 : d1 ≠ []) (hne2 : d2 ≠ []) :
    (mergeTables t1 t2).data = some (d1 ++
      (if areHeadersSimilar (d1.headD []) (d2.headD []) then d2.tail else d2)) := by
  unfold mergeTables
  rw [h1, h2]
  have l1 : 0 < d1.length := List.length_pos.mpr hne1
  have l2 : 0 < d2.length := List.length_pos.mpr hne2
  by_cases hsim : areHeadersSimilar (d1.headD []) (d2.headD []) = true
  · rw [if_pos hsim]
    simp only [if_pos (And.intro l1 (And.intro l2 hsim))]
    rw [List.drop_one]
  · rw [if_neg (by simpa using hsim)]
    have : ¬ (0 < d1.length ∧ 0 < d2.length ∧
        areHeadersSimilar (d1.headD []) (d2.headD []) = true) := by
      intro ⟨_, _, hx⟩
      exact hsim hx
    simp only [if_neg this, List.drop_zero]

theorem handleCrossPageTables_three (t1 t2 t3 : Table)
    (hp1 : t1.page = 1) (hp2 : t2.page = 2) (hp3 : t3.page = 3)
    (hrel : areTablesRelated t1 t2 = true) :
    handleCrossPageTables [t1, t2, t3] = [mergeTables t1 t2, t3] := by
  unfold handleCrossPageTables handleCrossPageTablesWith
  rw [if_neg (by simp)]
  have hle12 : tableLE t1 t2 = true := by
    unfold tableLE tableSortKey
    rw [hp1, hp2]
    simp
  have hle13 : tableLE t1 t3 = true := by
    unfold tableLE tableSortKey
    rw [hp1, hp3]
    simp
  have hle23 : tableLE t2 t3 = true := by
    unfold tableLE tableSortKey
    rw [hp2, hp3]
    simp
  have hsorted : List.Pairwise (fun a b => tableLE a b = true) [t1, t2, t3] := by
    refine List.Pairwise.cons ?_ (List.Pairwise.cons ?_ (List.pairwise_singleton _ _))
    · intro b hb
      rcases List.mem_cons.mp hb with rfl | hb2
      · exact hle12
      · rw [List.mem_singleton] at hb2
        subst hb2
        exact hle13
    · intro b hb
      rw [List.mem_singleton] at hb
      subst hb
      exact hle23
  have hsort : sortTables [t1, t2, t3] = [t1, t2, t3] :=
    List.mergeSort_of_sorted hsorted
  show mergeScan (sortTables [t1, t2, t3]) = [mergeTables t1 t2, t3]
  rw [hsort]
  rw [mergeScan_merge t1 t2 [t3] (by rw [hp1, hp2]) hrel]
  rfl

theorem firstNonEmptyResult_nil (call : String → Bool → Except Unit (List Table))
    (hasBorders : Bool) : firstNonEmptyResult call hasBorders [] = [] := rfl

theorem firstNonEmptyResult_cons (call : String → Bool → Except Unit (List Table))
    (hasBorders : Bool) (b : String) (rest : List String) :
    firstNonEmptyResult call hasBorders (b :: rest) =
      if (tryBackend call hasBorders b).isEmpty then firstNonEmptyResult call hasBorders rest
      else tryBackend call hasBorders b := rfl

theorem firstNonEmptyResult_one (call : String → Bool → Except Unit (List Table))
    (hasBorders : Bool) (b : String) :
    firstNonEmptyResult call hasBorders [b] = tryBackend call hasBorders b := by
  rw [firstNonEmptyResult_cons]
  by_cases h : (tryBackend call hasBorders b).isEmpty
  · rw [if_pos h, List.isEmpty_iff.mp h]
    rfl
  · rw [if_neg h]

theorem chain_two (call : String → Bool → Except Unit (List Table)) (hasBorders : Bool)
    (x y : String) :
    (if (tryBackend call hasBorders x).isEmpty = true then tryBackend call hasBorders y
      else tryBackend call hasBorders x) =
      firstNonEmptyResult call hasBorders [x, y] := by
  rw [firstNonEmptyResult_cons, firstNonEmptyResult_one]

theorem chain_eq (call : String → Bool → Except Unit (List Table))
    (hasBorders : Bool) (m : String) :
    (let t1 := if m ≠ "camelot" then tryBackend call hasBorders "camelot" else ([] : List Table)
     let t2 := if t1.isEmpty && m ≠ "tabula" then tryBackend call hasBorders "tabula" else t1
     if t2.isEmpty && m ≠ "pdfplumber" then tryBackend call hasBorders "pdfplumber" else t2) =
    firstNonEmptyResult call hasBorders (fallbackCandidates m) := by
  by_cases h1 : m = "camelot"
  · subst h1
    have hcand : fallbackCandidates "camelot" = ["tabula", "pdfplumber"] := by decide
    rw [hcand]
    dsimp only
    rw [if_neg (by decide : ¬ (("camelot" : String) ≠ "camelot"))]
    rw [show decide (("camelot" : String) ≠ "tabula") = true from by decide]
    rw [show decide (("camelot" : String) ≠ "pdfplumber") = true from by decide]
    rw [List.isEmpty_nil, Bool.and_true]
    rw [if_pos (show ((true && true) : Bool) = true from rfl)]
    exact chain_two call hasBorders "tabula" "pdfplumber"
  · by_cases h2 : m = "tabula"
    · subst h2
      have hcand : fallbackCandidates "tabula" = ["camelot", "pdfplumber"] := by decide
      rw [hcand]
      dsimp only
      rw [if_pos (by decide : ("tabula" : String) ≠ "camelot")]
      rw [show decide (("tabula" : String) ≠ "tabula") = false from by decide]
      rw [show decide (("tabula" : String) ≠ "pdfplumber") = true from by decide]
      rw [Bool.and_false, Bool.and_true]
      rw [if_neg (show ¬ (false = true) from Bool.false_ne_true)]
      exact chain_two call hasBorders "camelot" "pdfplumber"
    · by_cases h3 : m = "pdfplumber"
      · subst h3
        have hcand : fallbackCandidates "pdfplumber" = ["camelot", "tabula"] := by decide
        rw [hcand]
        dsimp only
        rw [if_pos (by decide : ("pdfplumber" : String) ≠ "camelot")]
        rw [show decide (("pdfplumber" : String) ≠ "tabula") = true from by decide]
        rw [show decide (("pdfplumber" : String) ≠ "pdfplumber") = false from by decide]
        rw [Bool.and_false, Bool.and_true]
        rw [if_neg (show ¬ (false = true) from Bool.false_ne_true)]
        exact chain_two call hasBorders "camelot" "tabula"
      · have hcand : fallbackCandidates m = ["camelot", "tabula", "pdfplumber"] := by
          unfold fallbackCandidates
          rw [List.filter_cons_of_pos (by simpa using fun h => h1 h.symm),
            List.filter_cons_of_pos (by simpa using fun h => h2 h.symm),
            List.filter_cons_of_pos (by simpa using fun h => h3 h.symm),
            List.filter_nil]
        rw [hcand]
        dsimp only
        rw [if_pos h1]
        rw [show decide (m ≠ "tabula") = true from decide_eq_true h2]
        rw [show decide (m ≠ "pdfplumber") = true from decide_eq_true h3]
        rw [Bool.and_true, Bool.and_true]
        rw [firstNonEmptyResult_cons]
        by_cases hrc : (tryBackend call hasBorders "camelot").isEmpty
        · rw [if_pos hrc, if_pos hrc]
          exact chain_two call hasBorders "tabula" "pdfplumber"
        · rw [if_neg hrc, if_neg hrc, if_neg hrc]

theorem unified_fallback_core (call : String → Bool → Except Unit (List Table))
    (post : Table → Table) (cfg : ExtractionConfig) (hasBorders : Bool)
    (hprim : primaryExtract call hasBorders (resolveMethod cfg hasBorders) = [])
    (hfb : cfg.fallbackToHeuristic = true) :
    extractTablesUnified call post cfg hasBorders =
      (firstNonEmptyResult call hasBorders
        (fallbackCandidates (resolveMethod cfg hasBorders))).map post := by
  unfold extractTablesUnified
  dsimp only
  rw [hprim, hfb, List.isEmpty_nil, Bool.and_true]
  rw [if_pos (show (true : Bool) = true from rfl)]
  exact congrArg (List.map post) (chain_eq call hasBorders (resolveMethod cfg hasBorders))

theorem stringSimilarity_self {s : String} (h : pynormL s.data ≠ []) :
    stringSimilarity s s = 1 := by
  unfold stringSimilarity stringSimilarityL
  dsimp only
  have he : (pynormL s.data).isEmpty = false := by simpa using h
  rw [he]
  rw [if_neg (by simp)]
  rw [if_pos rfl]

theorem stringSimilarity_self_blank {s : String} (h : pynormL s.data = []) :
    stringSimilarity s s = 0 := by
  unfold stringSimilarity stringSimilarityL
  dsimp only
  have he : (pynormL s.data).isEmpty = true := by simpa using h
  rw [he]
  rw [if_pos (by simp)]

theorem extractWithCamelot_data_none (minConfidence : ℚ) (headerExtraction : Bool)
    (flavor : String) (pageNumber : Nat) (tables : List CamelotRaw) :
    ∀ t ∈ extractWithCamelot minConfidence headerExtraction flavor pageNumber tables,
      t.data = none := by
  intro t ht
  unfold extractWithCamelot at ht
  obtain ⟨pair, _, hf⟩ := List.mem_filterMap.mp ht
  by_cases hacc : pair.2.accuracy < minConfidence
  · rw [if_pos hacc] at hf
    exact absurd hf (by simp)
  · rw [if_neg hacc] at hf
    dsimp only at hf
    have ht2 := Option.some.inj hf
    rw [← ht2]
    by_cases hhe : (headerExtraction && !pair.2.df.isEmpty) = true
    · rw [if_pos hhe]
    · rw [if_neg hhe]

theorem extractWithTabula_data_none (headerExtraction : Bool) (lattice : Bool)
    (pageNumber : Nat) (dfs : List PyDataFrame) :
    ∀ t ∈ extractWithTabula headerExtraction lattice pageNumber dfs, t.data = none := by
  intro t ht
  unfold extractWithTabula at ht
  obtain ⟨pair, _, hf⟩ := List.mem_filterMap.mp ht
  by_cases hemp : pair.2.isEmpty = true
  · rw [if_pos hemp] at hf
    exact absurd hf (by simp)
  · rw [if_neg hemp] at hf
    dsimp only at hf
    have ht2 := Option.some.inj hf
    rw [← ht2]
    by_cases hhe : (headerExtraction && !pair.2.isEmpty) = true
    · rw [if_pos hhe]
    · rw [if_neg hhe]

theorem extractWithPdfplumber_data_none (headerExtraction : Bool)
    (verticalStrategy horizontalStrategy : String) (pageNumber : Nat)
    (tablesData : List (List (List (Option String)))) :
    ∀ t ∈ extractWithPdfplumber headerExtraction verticalStrategy horizontalStrategy
      pageNumber tablesData, t.data = none := by
  intro t ht
  unfold extractWithPdfplumber at ht
  obtain ⟨pair, _, hf⟩ := List.mem_filterMap.mp ht
  by_cases hemp : pair.2.isEmpty = true
  · rw [if_pos hemp] at hf
    exact absurd hf (by simp)
  · rw [if_neg hemp] at hf
    dsimp only at hf
    have ht2 := Option.some.inj hf
    rw [← ht2]
    by_cases hhe : (!headerExtraction &&
        !(pair.2.map (fun row => row.map (fun cell =>
          match cell with
          | none => ""
          | some s => pyStrip s))).isEmpty) = true
    · rw [if_pos hhe]
    · rw [if_neg hhe]

/-- C1 counterexample: a related consecutive-page pair of backend-shaped tables
(row data under the `rows` key, free text under the `context` key) is fused by
the cross-page pass, but the merged table's `rows` are not the concatenation of
the two tables' rows (with or without a header skip), and its `context` is not
the concatenation of the two contexts: `_merge_tables` concatenates only the
`data` and `text` keys. -/
theorem claim_C1_counterexample :
    cexRowsTable2.page = cexRowsTable1.page + 1 ∧
    areTablesRelated cexRowsTable1 cexRowsTable2 = true ∧
    handleCrossPageTables [cexRowsTable1, cexRowsTable2] =
      [mergeTables cexRowsTable1 cexRowsTable2] ∧
    ¬ ((mergeTables cexRowsTable1 cexRowsTable2).rows =
        cexRowsTable1.rows ++ cexRowsTable2.rows.tail ∨
       (mergeTables cexRowsTable1 cexRowsTable2).rows =
        cexRowsTable1.rows ++ cexRowsTable2.rows) ∧
    (mergeTables cexRowsTable1 cexRowsTable2).context ≠
      cexRowsTable1.context ++ cexRowsTable2.context := by
  refine ⟨rfl, by decide, ?_, by decide, by decide⟩
  unfold handleCrossPageTables handleCrossPageTablesWith
  rw [if_neg (by decide)]
  show mergeScan (sortTables [cexRowsTable1, cexRowsTable2]) = _
  have hsorted : List.Pairwise (fun a b => tableLE a b = true)
      [cexRowsTable1, cexRowsTable2] := by
    refine List.Pairwise.cons ?_ (List.pairwise_singleton _ _)
    intro b hb
    rw [List.mem_singleton] at hb
    subst hb
    decide
  rw [show sortTables [cexRowsTable1, cexRowsTable2] = [cexRowsTable1, cexRowsTable2]
    from List.mergeSort_of_sorted hsorted]
  rw [mergeScan_merge _ _ [] (by decide) (by decide)]
  rfl

/-- C1 (amended): the merged table is a copy of the first table in which the
`data` key (not `rows`) is the concatenation of the two tables' `data` (with
the second table's leading row skipped when it is header-similar to the first
table's leading row), the `text` key (not `context`) is the two texts joined
with a newline, `page_range = [first.page, second.page]`,
`extraction_method = first.method ++ "_cross_page"`, `is_cross_page = true`,
and `rows`, `context`, `bbox` and `headers` are inherited unchanged from the
first table. -/
theorem claim_C1_merge_fields : ∀ t1 t2 : Table,
    (mergeTables t1 t2).rows = t1.rows ∧
    (mergeTables t1 t2).context = t1.context ∧
    (mergeTables t1 t2).bbox = t1.bbox ∧
    (mergeTables t1 t2).headers = t1.headers ∧
    (mergeTables t1 t2).page_range = some [t1.page, t2.page] ∧
    (mergeTables t1 t2).extraction_method = t1.extraction_method ++ "_cross_page" ∧
    (mergeTables t1 t2).is_cross_page = true ∧
    (mergeTables t1 t2).text = t1.text ++ "\n" ++ t2.text ∧
    (t2.data = none → (mergeTables t1 t2).data = t1.data) ∧
    (∀ d1 d2, t1.data = some d1 → t2.data = some d2 → d1 ≠ [] → d2 ≠ [] →
      (mergeTables t1 t2).data = some (d1 ++
        (if areHeadersSimilar (d1.headD []) (d2.headD []) then d2.tail else d2))) :=
  fun t1 t2 =>
    ⟨mergeTables_rows t1 t2, mergeTables_context t1 t2, mergeTables_bbox t1 t2,
     mergeTables_headers t1 t2, mergeTables_page_range t1 t2, mergeTables_method t1 t2,
     mergeTables_cross_page t1 t2, mergeTables_text t1 t2,
     fun h => mergeTables_data_none h,
     fun _ _ h1 h2 hne1 hne2 => mergeTables_data_some h1 h2 hne1 hne2⟩

/-- Witness for C1 (amended) at the concrete pages-3/4 instance with identical
3-column leading rows carried in `data`. -/
theorem claim_C1_merge_fields_witness :
    (mergeTables exDataTable1 exDataTable2).page_range = some [3, 4] ∧
    (mergeTables exDataTable1 exDataTable2).is_cross_page = true ∧
    (mergeTables exDataTable1 exDataTable2).data =
      some ([["Name", "Age", "City"], ["1", "2", "3"]] ++
        (if areHeadersSimilar ["Name", "Age", "City"] ["Name", "Age", "City"]
          then [["4", "5", "6"]]
          else [["Name", "Age", "City"], ["4", "5", "6"]])) := by
  obtain ⟨_, _, _, _, hpr, _, hcp, _, _, hdata⟩ :=
    claim_C1_merge_fields exDataTable1 exDataTable2
  exact ⟨hpr, hcp, hdata _ _ rfl rfl (by decide) (by decide)⟩

/-- C2 counterexample: `_refine_table_structure` is not idempotent.  On
`data = [["a","b"],["c",""]]` with no headers, the first run promotes
`["a","b"]` to headers, leaving `[["c",""]]`; the second run then finds the
second column entirely blank and prunes it. -/
theorem claim_C2_counterexample :
    refineTableStructure (refineTableStructure cexRefineTable) ≠
      refineTableStructure cexRefineTable := by decide

/-- C2 (amended): refinement is idempotent on every table whose `headers` are
non-empty (so header promotion cannot fire) and whose `data` rows all have
equal length (so the truncating `zip` transpose is faithful); in general a
second run can prune further, as the counterexample shows. -/
theorem claim_C2_refine_idempotent : ∀ t : Table, t.headers ≠ [] →
    (∀ d, t.data = some d → ∀ r1 ∈ d, ∀ r2 ∈ d, r1.length = r2.length) →
    refineTableStructure (refineTableStructure t) = refineTableStructure t :=
  fun t hh hrect => refine_refine_of_headers_rect t hh hrect

/-- Witness for C2 (amended) on a concrete rectangular table with headers. -/
theorem claim_C2_refine_idempotent_witness :
    refineTableStructure (refineTableStructure exRefineTable) =
      refineTableStructure exRefineTable :=
  claim_C2_refine_idempotent exRefineTable (by decide) (by
    intro d hd
    have hd2 : ([["a", "b"], ["c", "d"]] : List (List String)) = d :=
      Option.some.inj hd
    subst hd2
    decide)

/-- C3: the camelot and tabula converters violate `num_rows == len(rows)` when
header extraction is enabled and the frame is non-empty: `num_rows` is set to
the raw frame's row count before the header row is removed from `rows`.  At a
2-row frame both converters emit `num_rows = 2` with a single remaining row. -/
theorem claim_C3_num_rows_bug :
    ((extractWithCamelot 80 true "lattice" 1 [camelotRawBug]).all
      (fun t => t.num_rows == t.rows.length)) = false ∧
    ((extractWithTabula true true 1 [tabulaDfBug]).all
      (fun t => t.num_rows == t.rows.length)) = false := by
  constructor
  · decide
  · decide

/-- C4 counterexample: `_string_similarity(s, s)` is not `1.0` for every
non-empty `s`; a whitespace-only string strips to empty and scores `0.0`. -/
theorem claim_C4_counterexample :
    (" " : String) ≠ "" ∧ stringSimilarity " " " " ≠ 1 := by decide

/-- C4 (amended): `_string_similarity(s, s) = 1.0` for every `s` that is
non-blank after the `.lower().strip()` normalisation; a string that normalises
to empty (in particular a whitespace-only string) scores `0.0` against itself;
and `_string_similarity("", "x") = 0.0`. -/
theorem claim_C4_similarity :
    (∀ s : String, pynormL s.data ≠ [] → stringSimilarity s s = 1) ∧
    (∀ s : String, pynormL s.data = [] → stringSimilarity s s = 0) ∧
    stringSimilarity "" "x" = 0 :=
  ⟨fun _ h => stringSimilarity_self h, fun _ h => stringSimilarity_self_blank h, by decide⟩

/-- Witness for C4 (amended) at `"abc"` and at the whitespace-only `" "`. -/
theorem claim_C4_similarity_witness :
    stringSimilarity "abc" "abc" = 1 ∧ stringSimilarity " " " " = 0 :=
  ⟨claim_C4_similarity.1 "abc" (by decide), claim_C4_similarity.2.1 " " (by decide)⟩

/-- C5: `_detect_table_borders` returns true exactly when the page has at
least 5 qualifying horizontal and 3 qualifying vertical line segments (at
least 10 units long, with the respective end-point delta below 3), or at least
10 rectangle paths, or any image-type block; a page with none of these is
borderless; and a failing geometry inspection yields false. -/
theorem claim_C5_detect_borders :
    (∀ p : PageData, detectTableBorders (Except.ok p) = true ↔
      ((5 ≤ specHLines p ∧ 3 ≤ specVLines p) ∨ 10 ≤ specRectangles p ∨
        ∃ b ∈ p.blocks, b.blockType = some 1)) ∧
    (∀ p : PageData, specHLines p = 0 → specVLines p = 0 → specRectangles p = 0 →
      (∀ b ∈ p.blocks, b.blockType ≠ some 1) →
      detectTableBorders (Except.ok p) = false) ∧
    detectTableBorders (Except.error ()) = false := by
  refine ⟨fun p => detectCore_iff p, ?_, rfl⟩
  intro p h1 _ h3 h4
  show detectTableBordersCore p = false
  cases hb : detectTableBordersCore p
  · rfl
  · rcases (detectCore_iff p).mp hb with ⟨h5, _⟩ | h10 | ⟨b, hbm, hb1⟩
    · omega
    · omega
    · exact absurd hb1 (h4 b hbm)

/-- Witness for C5 at the empty page. -/
theorem claim_C5_detect_borders_witness :
    detectTableBorders (Except.ok emptyPage) = false :=
  claim_C5_detect_borders.2.1 emptyPage (by decide) (by decide) (by decide) (by decide)

/-- C6: on three consecutive pairwise-related tables on pages 1, 2 and 3, a
single cross-page pass merges the first two and passes the third through
untouched — the scan pointer advances by two after a merge, so merged results
are never chained. -/
theorem claim_C6_single_pass : ∀ t1 t2 t3 : Table,
    t1.page = 1 → t2.page = 2 → t3.page = 3 →
    areTablesRelated t1 t2 = true → areTablesRelated t2 t3 = true →
    handleCrossPageTables [t1, t2, t3] = [mergeTables t1 t2, t3] :=
  fun t1 t2 t3 h1 h2 h3 hr12 _ => handleCrossPageTables_three t1 t2 t3 h1 h2 h3 hr12

/-- Witness for C6 on concrete tables. -/
theorem claim_C6_single_pass_witness :
    handleCrossPageTables [exPage1Table, exPage2Table, exPage3Table] =
      [mergeTables exPage1Table exPage2Table, exPage3Table] :=
  claim_C6_single_pass exPage1Table exPage2Table exPage3Table rfl rfl rfl
    (by decide) (by decide)

/-- C7: `_are_headers_similar` returns false on header lists of different
lengths, and on equal-length non-empty lists it returns true exactly when the
fraction of column pairs with string similarity above 0.8 exceeds 0.7. -/
theorem claim_C7_headers_similar :
    (∀ h1 h2 : List String, h1.length ≠ h2.length → areHeadersSimilar h1 h2 = false) ∧
    (∀ h1 h2 : List String, areHeadersSimilar h1 h2 = true ↔ headersSimilarSpec h1 h2) := by
  constructor
  · intro h1 h2 hlen
    cases hb : areHeadersSimilar h1 h2
    · rfl
    · exact absurd ((areHeadersSimilar_iff h1 h2).mp hb).1 hlen
  · exact areHeadersSimilar_iff

/-- Witness for C7 at a length-mismatched pair. -/
theorem claim_C7_headers_similar_witness :
    areHeadersSimilar ["a"] ["a", "b"] = false :=
  claim_C7_headers_similar.1 ["a"] ["a", "b"] (by decide)

/-- C8: when the primary backend's result is empty and the fallback flag is
set, `_extract_tables_unified` retries the remaining backends in the fixed
order camelot, tabula, pdfplumber — skipping the backend already tried — and
stops at the first non-empty result. -/
theorem claim_C8_fallback_order :
    ∀ (call : String → Bool → Except Unit (List Table)) (post : Table → Table)
      (cfg : ExtractionConfig) (hasBorders : Bool),
    primaryExtract call hasBorders (resolveMethod cfg hasBorders) = [] →
    cfg.fallbackToHeuristic = true →
    extractTablesUnified call post cfg hasBorders =
      (firstNonEmptyResult call hasBorders
        (fallbackCandidates (resolveMethod cfg hasBorders))).map post :=
  fun call post cfg hb hp hf => unified_fallback_core call post cfg hb hp hf

/-- Witness for C8 with an oracle on which every backend is empty. -/
theorem claim_C8_fallback_order_witness :
    extractTablesUnified emptyCall id defaultConfig true =
      (firstNonEmptyResult emptyCall true
        (fallbackCandidates (resolveMethod defaultConfig true))).map id :=
  claim_C8_fallback_order emptyCall id defaultConfig true rfl rfl

/-- C9 counterexample: with the two (related) tables supplied in descending
page order, a scan exception makes `_handle_cross_page_tables` return the
list as already re-sorted in place by `tables.sort(...)` — the same tables in
a different order — so the original claim's "returns the original unmerged
input list unchanged (same tables in the same order)" is false of the code. -/
theorem claim_C9_counterexample :
    handleCrossPageTablesWith failingStep [exPage2Table, exPage1Table] =
      [exPage1Table, exPage2Table] ∧
    handleCrossPageTablesWith failingStep [exPage2Table, exPage1Table] ≠
      [exPage2Table, exPage1Table] := by
  have hsort : sortTables [exPage2Table, exPage1Table] = [exPage1Table, exPage2Table] :=
    mergeSort_pair (by decide) (by decide)
  have hres : handleCrossPageTablesWith failingStep [exPage2Table, exPage1Table] =
      [exPage1Table, exPage2Table] := by
    unfold handleCrossPageTablesWith
    rw [if_neg (by decide)]
    show sortTables [exPage2Table, exPage1Table] = [exPage1Table, exPage2Table]
    exact hsort
  refine ⟨hres, ?_⟩
  rw [hres]
  decide

/-- C9 (amended): if the merge scan signals an exception, the exception is
caught and `_handle_cross_page_tables` returns — without propagating — the
list in its current state: the same multiset of tables, but already
re-sorted in place by the sort at the top of the `try` block (inputs shorter
than two tables are returned exactly as given, before the sort runs).  The
original claim's "same tables in the same order" holds only for inputs that
were already sorted. -/
theorem claim_C9_merge_exception_safe :
    ∀ (scanStep : List Table → Except Unit (List Table)) (tables : List Table),
    scanStep (sortTables tables) = Except.error () →
    handleCrossPageTablesWith scanStep tables =
      (if tables.length < 2 then tables else sortTables tables) ∧
    (handleCrossPageTablesWith scanStep tables).Perm tables := by
  intro scanStep tables h
  refine ⟨handleWith_error scanStep tables h, ?_⟩
  rw [handleWith_error scanStep tables h]
  by_cases hlen : tables.length < 2
  · rw [if_pos hlen]
  · rw [if_neg hlen]
    exact List.mergeSort_perm tables tableLE

/-- Witness for C9 with an always-failing scan step on a two-table list. -/
theorem claim_C9_merge_exception_safe_witness :
    handleCrossPageTablesWith failingStep [exPage1Table, exPage2Table] =
      (if ([exPage1Table, exPage2Table] : List Table).length < 2
        then [exPage1Table, exPage2Table]
        else sortTables [exPage1Table, exPage2Table]) ∧
    (handleCrossPageTablesWith failingStep [exPage1Table, exPage2Table]).Perm
      [exPage1Table, exPage2Table] :=
  claim_C9_merge_exception_safe failingStep [exPage1Table, exPage2Table] rfl

/-- C10: `_refine_table_structure` returns tables without a non-empty `data`
key unchanged, and none of the three backend converters ever emits a `data`
key, so every backend-produced table passes through refinement as the
identity. -/
theorem claim_C10_no_data_key :
    (∀ t : Table, (t.data = none ∨ t.data = some []) → refineTableStructure t = t) ∧
    (∀ mc he fl pn raws, ∀ t ∈ extractWithCamelot mc he fl pn raws,
      t.data = none ∧ refineTableStructure t = t) ∧
    (∀ he lat pn dfs, ∀ t ∈ extractWithTabula he lat pn dfs,
      t.data = none ∧ refineTableStructure t = t) ∧
    (∀ he vs hs pn tds, ∀ t ∈ extractWithPdfplumber he vs hs pn tds,
      t.data = none ∧ refineTableStructure t = t) := by
  have base : ∀ t : Table, (t.data = none ∨ t.data = some []) →
      refineTableStructure t = t := by
    intro t h
    rcases h with h | h
    · exact refine_of_none h
    · exact refine_of_empty h
  refine ⟨base, ?_, ?_, ?_⟩
  · intro mc he fl pn raws t ht
    have hd := extractWithCamelot_data_none mc he fl pn raws t ht
    exact ⟨hd, base t (Or.inl hd)⟩
  · intro he lat pn dfs t ht
    have hd := extractWithTabula_data_none he lat pn dfs t ht
    exact ⟨hd, base t (Or.inl hd)⟩
  · intro he vs hs pn tds t ht
    have hd := extractWithPdfplumber_data_none he vs hs pn tds t ht
    exact ⟨hd, base t (Or.inl hd)⟩

/-- Witness for C10 on a backend-shaped table without a `data` key. -/

theorem claim_C10_no_data_key_witness :
    refineTableStructure plainTable = plainTable :=
  claim_C10_no_data_key.1 plainTable (Or.inl rfl)
